import Mathlib

/-!
Shallow embedding of the `pakk` package installer (`src/cli/index.ts`) and of
the compression dictionary selector, together with proofs of the specified
properties.  JavaScript strings are modelled as lists of characters
(`Str := List Char`), JavaScript `Map`s and JSON objects as insertion-ordered
association lists, and the single-threaded event loop as sequential execution.
-/

set_option maxRecDepth 4000

namespace Pakk

abbrev Str := List Char

/-- JS `s.split(sep)` for a one-character separator: the result always has at
least one (possibly empty) component; `"".split(sep)` is `[""]`. -/
def splitOn (sep : Char) : Str → List Str
  | [] => [[]]
  | c :: cs =>
    if c = sep then [] :: splitOn sep cs
    else
      match splitOn sep cs with
      | [] => [[c]]
      | p :: ps => (c :: p) :: ps

/-- Longest leading run of decimal digits. -/
def digitRun : Str → List Char := List.takeWhile Char.isDigit

/-- Numeric value of a list of decimal digit characters (big-endian). -/
def digitsVal (ds : List Char) : Nat := ds.foldl (fun a c => a * 10 + (c.toNat - 48)) 0

/-- JS `parseInt(s, 10)` restricted to the shapes reachable from dot-separated
version components: an optional leading minus sign followed by the longest
leading decimal digit run; trailing garbage is ignored; no digits at all is
`NaN`, modelled as `none`.  (Leading whitespace and a leading `+`, which
`parseInt` would also accept, cannot occur in the inputs this program feeds
it and are not modelled.) -/
def jsParseInt (s : Str) : Option Int :=
  if s.head? = some '-' then
    let ds := digitRun s.tail
    if ds = [] then none else some (-(digitsVal ds : Int))
  else
    let ds := digitRun s
    if ds = [] then none else some ((digitsVal ds : Int))

/-- `parseInt(n, 10) || 0`: `NaN` becomes 0 (and the value 0 stays 0). -/
def parseIntOr0 (s : Str) : Int := (jsParseInt s).getD 0

/-- `i`-th numeric component of a version string:
`a.split('.').map(n => parseInt(n, 10) || 0)` indexed with `pa[i] || 0`
(reading past the end gives `undefined`, hence 0). -/
def verComp (s : Str) (i : Nat) : Int := ((splitOn '.' s).map parseIntOr0).getD i 0

/-- `compareVersions` from `src/cli/index.ts` with its three-iteration `for`
loop unrolled: the first nonzero componentwise difference among the first
three components, else 0. -/
def compareVersions (a b : Str) : Int :=
  let d0 := verComp a 0 - verComp b 0
  if d0 ≠ 0 then d0 else
  let d1 := verComp a 1 - verComp b 1
  if d1 ≠ 0 then d1 else
  let d2 := verComp a 2 - verComp b 2
  if d2 ≠ 0 then d2 else 0

/-- `version.replace(/^v/, '')`: drop one leading `v` if present. -/
def stripV (s : Str) : Str := if s.head? = some 'v' then s.tail else s

/-- `satisfies(version, range)` from `src/cli/index.ts`.  The `*`/`latest`
test happens on the raw range; every other branch works on the `v`-stripped
strings.  Destructured components (`[major] = base.split('.')` etc.) are
modelled as optional indexing, so a missing `minor` is `none` (JS
`undefined`), and `undefined === undefined` is `true`. -/
def satisfies (version range : Str) : Bool :=
  if range = [ '*' ] ∨ range = ("latest").data then true
  else
    let cleanVersion := stripV version
    let cleanRange := stripV range
    if cleanRange.head? = some '^' then
      let base := cleanRange.tail
      decide ((splitOn '.' base)[0]? = (splitOn '.' cleanVersion)[0]?) &&
        decide (0 ≤ compareVersions cleanVersion base)
    else if cleanRange.head? = some '~' then
      let base := cleanRange.tail
      let bp := splitOn '.' base
      let vp := splitOn '.' cleanVersion
      decide (bp[0]? = vp[0]?) && decide (bp[1]? = vp[1]?) &&
        decide (0 ≤ compareVersions cleanVersion base)
    else if (">=").data.isPrefixOf cleanRange then
      decide (0 ≤ compareVersions cleanVersion (cleanRange.drop 2))
    else if cleanRange.head? = some '>' then
      decide (0 < compareVersions cleanVersion (cleanRange.drop 1))
    else if ("<=").data.isPrefixOf cleanRange then
      decide (compareVersions cleanVersion (cleanRange.drop 2) ≤ 0)
    else if cleanRange.head? = some '<' then
      decide (compareVersions cleanVersion (cleanRange.drop 1) < 0)
    else decide (cleanVersion = cleanRange)

/-- Order in which JS `Array.prototype.sort` with the comparator
`(a, b) => compareVersions(b, a)` arranges two elements: `a` may precede `b`
iff the comparator is `≤ 0`, i.e. descending version order. -/
def descLe (a b : Str) : Prop := compareVersions b a ≤ 0

instance : DecidableRel descLe := fun _ _ => inferInstanceAs (Decidable (_ ≤ 0))

/-- `findBestVersion` from `src/cli/index.ts`: filter the candidates by
`satisfies`, sort descending with the `(a, b) => compareVersions(b, a)`
comparator (JS `Array.prototype.sort` is stable; for a consistent comparator
its result coincides with stable insertion sort), and return
`matching[0] || null` — note that an empty string in head position is falsy
and yields `null`. -/
def findBestVersion (versions : List Str) (range : Str) : Option Str :=
  let matching := (versions.filter (fun v => satisfies v range)).insertionSort descLe
  match matching.head? with
  | some v => if v = [] then none else some v
  | none => none

/-! ### Canonical numeric versions and the supported range grammar (C4) -/

/-- A canonical `major.minor.patch` version of the supported grammar. -/
structure Ver3 where
  major : Nat
  minor : Nat
  patch : Nat
deriving DecidableEq

/-- Decimal rendering of a natural number (no leading zeros, `0` is `"0"`). -/
def renderNat (n : Nat) : Str :=
  if n = 0 then [ '0' ]
  else (Nat.digits 10 n).reverse.map (fun d => Char.ofNat (48 + d))

/-- Rendering of a canonical version as a string of the version grammar. -/
def renderVer (v : Ver3) : Str :=
  renderNat v.major ++ '.' :: (renderNat v.minor ++ '.' :: renderNat v.patch)

/-- The comparator restricted to rendered canonical versions is the
lexicographic componentwise difference. -/
def cmpVer3 (x y : Ver3) : Int :=
  if (x.major : Int) - y.major ≠ 0 then (x.major : Int) - y.major
  else if (x.minor : Int) - y.minor ≠ 0 then (x.minor : Int) - y.minor
  else if (x.patch : Int) - y.patch ≠ 0 then (x.patch : Int) - y.patch
  else 0

/-- The supported range grammar of the spec:
exact version, `*`, `latest`, caret, tilde, and the comparison operators. -/
inductive RangeForm where
  | exactR (b : Ver3)
  | starR
  | latestR
  | caretR (b : Ver3)
  | tildeR (b : Ver3)
  | geR (b : Ver3)
  | gtR (b : Ver3)
  | leR (b : Ver3)
  | ltR (b : Ver3)

/-- String form of a range of the supported grammar. -/
def renderRange : RangeForm → Str
  | .exactR b => renderVer b
  | .starR => [ '*' ]
  | .latestR => ("latest").data
  | .caretR b => '^' :: renderVer b
  | .tildeR b => '~' :: renderVer b
  | .geR b => '>' :: '=' :: renderVer b
  | .gtR b => '>' :: renderVer b
  | .leR b => '<' :: '=' :: renderVer b
  | .ltR b => '<' :: renderVer b

/-- Numeric `major.minor.patch` order of the spec: `x ≥ b`. -/
def verGe (x b : Ver3) : Prop :=
  b.major < x.major ∨ (b.major = x.major ∧
    (b.minor < x.minor ∨ (b.minor = x.minor ∧ b.patch ≤ x.patch)))

/-- Numeric `major.minor.patch` order of the spec: `x > b`. -/
def verGt (x b : Ver3) : Prop :=
  b.major < x.major ∨ (b.major = x.major ∧
    (b.minor < x.minor ∨ (b.minor = x.minor ∧ b.patch < x.patch)))

instance (x b : Ver3) : Decidable (verGe x b) := by unfold verGe; infer_instance

instance (x b : Ver3) : Decidable (verGt x b) := by unfold verGt; infer_instance

/-- The range semantics exactly as worded by the spec: exact equality;
`*`/`latest` always true; caret — same major and `v ≥ base`; tilde — same
major and minor and `v ≥ base`; `>=`, `>`, `<=`, `<` under the purely
numeric `major.minor.patch` order. -/
def specSatisfies (x : Ver3) : RangeForm → Bool
  | .exactR b => decide (x = b)
  | .starR => true
  | .latestR => true
  | .caretR b => decide (x.major = b.major ∧ verGe x b)
  | .tildeR b => decide (x.major = b.major ∧ x.minor = b.minor ∧ verGe x b)
  | .geR b => decide (verGe x b)
  | .gtR b => decide (verGt x b)
  | .leR b => decide (verGe b x)
  | .ltR b => decide (verGt b x)

/-! ### Dependency resolution (`resolveDependencies` in `src/cli/index.ts`)

The resolver walks the dependency graph with an explicit depth counter,
deduplicating by package name in a shared `Map`.  The JS code issues each
depth level in awaited batches on a single-threaded event loop; we model the
canonical sequential linearization of that traversal.  Metadata fetches and
warnings are recorded in an event log so that claims about network calls and
error downgrading can be stated. -/

/-- A JS object used as a map from names to range strings, in insertion
order. -/
abbrev DepMap := List (Str × Str)

/-- `ResolvedPackage` from `src/cli/index.ts`. -/
structure ResolvedPackage where
  name : Str
  version : Str
  integrity : Str
  tarballUrl : Str
  dependencies : DepMap
  peerDependencies : Option DepMap
  optionalDependencies : Option DepMap
deriving DecidableEq

/-- A JS `Map<string, ResolvedPackage>` in insertion order. -/
abbrev RMap := List (Str × ResolvedPackage)

/-- `map.get(k)` (up to presence): first binding of `k`. -/
def lookupA (m : RMap) (k : Str) : Option ResolvedPackage :=
  match m with
  | [] => none
  | (k', v) :: rest => if k' = k then some v else lookupA rest k

/-- `map.set(k, v)`: overwrite in place if present, else append. -/
def setA (m : RMap) (k : Str) (v : ResolvedPackage) : RMap :=
  match m with
  | [] => [(k, v)]
  | (k', v') :: rest => if k' = k then (k', v) :: rest else (k', v') :: setA rest k v

/-- `dist` object of a registry version record. -/
structure Dist where
  integrity : Option Str
  shasum : Option Str
  tarball : Option Str

/-- One version record of registry metadata. -/
structure VersionData where
  dist : Option Dist
  dependencies : Option DepMap
  peerDependencies : Option DepMap
  optionalDependencies : Option DepMap

/-- Registry metadata for one package: its `versions` object. -/
structure Metadata where
  versions : List (Str × VersionData)

/-- The registry: `fetchPackageMetadata` either returns metadata or throws
(non-200, network failure), modelled as `none`. -/
def Registry := Str → Option Metadata

/-- Lookup in the `versions` object of a metadata record. -/
def lookupVD (m : List (Str × VersionData)) (k : Str) : Option VersionData :=
  match m with
  | [] => none
  | (k', v) :: rest => if k' = k then some v else lookupVD rest k

/-- Observable events of a resolution pass. -/
inductive REvent where
  | fetchMeta (name : Str) (depth : Nat)
  | warnNoVersion (name : Str) (range : Str)
  | warnFailed (name : Str) (msg : Str)
deriving DecidableEq

/-- Mutable state of a resolution pass: the shared `resolved` map plus the
event log. -/
structure ResState where
  resolved : RMap
  events : List REvent
deriving DecidableEq

def ResState.init : ResState := ⟨[], []⟩

def ResState.addEvent (st : ResState) (e : REvent) : ResState :=
  { st with events := st.events ++ [e] }

/-- The message of the depth-guard error thrown at the top of
`resolveDependencies`. -/
def depthErrMsg : Str := ("Maximum dependency depth exceeded").data

/-- Stand-in message for a failed metadata fetch (the JS text interpolates
the underlying error). -/
def fetchFailMsg : Str := ("Failed to fetch").data

/-- JS `x || y` for a possibly-undefined string `x`: `undefined` and the
empty string are falsy. -/
def orElseStr (a : Option Str) (b : Str) : Str :=
  match a with
  | some s => if s = [] then b else s
  | none => b

/-- The `ResolvedPackage` built from a version record in
`resolveDependencies` (integrity falls back from `dist.integrity` to
`dist.shasum` to `''`; missing `dependencies` becomes `{}`). -/
def mkResolved (name best : Str) (vd : VersionData) : ResolvedPackage :=
  { name := name
    version := best
    integrity := orElseStr (vd.dist.bind Dist.integrity)
      (orElseStr (vd.dist.bind Dist.shasum) [])
    tarballUrl := orElseStr (vd.dist.bind Dist.tarball) []
    dependencies := vd.dependencies.getD []
    peerDependencies := vd.peerDependencies
    optionalDependencies := vd.optionalDependencies }

/-- The entry-processing loop of `resolveDependencies`, sequentialized.  For
each pending `(name, range)`: skip if already resolved; fetch metadata (an
event at the current depth; a throwing fetch is caught and logged); pick
`findBestVersion` (logging a warning when `null`); insert the resolved
package; recurse into its dependencies at `depth + 1` — the recursive call
is the inlined body of `resolveDependencies` (depth guard, then filter of
already-resolved names), and an error it throws is caught by the
surrounding per-package `catch` and downgraded to a warning.  `fuel` is a
termination artifact only: it decreases once per processed entry and per
nesting level, and an exhausted-fuel call returns its state unchanged —
unreachable for any concrete run given enough fuel, and all general
theorems below hold for every fuel. -/
def resolveEntries (reg : Registry) :
    Nat → List (Str × Str) → ResState → Nat → Except Str ResState
  | 0, _, st, _ => .ok st
  | _ + 1, [], st, _ => .ok st
  | fuel + 1, (name, range) :: rest, st, depth =>
    if (lookupA st.resolved name).isSome then
      resolveEntries reg fuel rest st depth
    else
      let st1 := st.addEvent (.fetchMeta name depth)
      match reg name with
      | none =>
        resolveEntries reg fuel rest (st1.addEvent (.warnFailed name fetchFailMsg)) depth
      | some metadata =>
        match findBestVersion (metadata.versions.map Prod.fst) range with
        | none =>
          resolveEntries reg fuel rest (st1.addEvent (.warnNoVersion name range)) depth
        | some best =>
          let vd := (lookupVD metadata.versions best).getD ⟨none, none, none, none⟩
          let pkg := mkResolved name best vd
          let st2 := { st1 with resolved := setA st1.resolved name pkg }
          if pkg.dependencies ≠ [] then
            match (if depth + 1 > 50 then Except.error depthErrMsg
                else resolveEntries reg fuel
                  (pkg.dependencies.filter
                    (fun e => ¬ (lookupA st2.resolved e.1).isSome))
                  st2 (depth + 1)) with
            | .error msg =>
              resolveEntries reg fuel rest (st2.addEvent (.warnFailed name msg)) depth
            | .ok st3 => resolveEntries reg fuel rest st3 depth
          else
            resolveEntries reg fuel rest st2 depth

/-- `resolveDependencies(dependencies, resolved, depth)`: the depth guard
(`throw` when `depth > 50`), then the `toResolve` filter of names already in
the map, then the entry loop. -/
def resolveDependencies (reg : Registry) (fuel : Nat) (deps : DepMap)
    (st : ResState) (depth : Nat) : Except Str ResState :=
  if depth > 50 then .error depthErrMsg
  else resolveEntries reg fuel
    (deps.filter (fun e => ¬ (lookupA st.resolved e.1).isSome)) st depth

/-- Whether an install-level call would have succeeded. -/
def isOkE : Except Str ResState → Bool
  | .ok _ => true
  | .error _ => false

/-- State of a successful resolution (errors collapse to the initial
state; used only where the call is proven to succeed). -/
def okState : Except Str ResState → ResState
  | .ok st => st
  | .error _ => ResState.init

/-- Depths of all metadata fetches recorded in an event list. -/
def fetchDepths (es : List REvent) : List Nat :=
  es.filterMap (fun e => match e with
    | .fetchMeta _ d => some d
    | _ => none)

/-! ### A synthetic dependency chain of depth 51 -/

/-- `dist` record shared by the chain registry's packages. -/
def chainDist : Dist :=
  { integrity := some (("sha").data)
    shasum := none
    tarball := some (("url").data) }

/-- Metadata of the `i`-th chain package: one version `1.0.0` depending on
the `(i+1)`-th package (none for the last). -/
def chainMeta (i : Nat) : Metadata :=
  { versions := [(("1.0.0").data,
      { dist := some chainDist
        dependencies :=
          if i < 51 then some [(List.replicate (i + 2) 'p', [ '*' ])] else none
        peerDependencies := none
        optionalDependencies := none })] }

/-- A registry holding the 52-package chain `p`, `pp`, …: package `i` is
named by `i+1` copies of `p`, and resolving it from the root reaches
package `i` at depth `i`, so the chain's tail sits at depth 51. -/
def chainReg : Registry := fun name =>
  if name ≠ [] ∧ name.length ≤ 52 ∧ name.all (fun c => c = 'p')
  then some (chainMeta (name.length - 1)) else none

/-- The resolution pass `install` runs for a manifest depending on the head
of the chain. -/
def chainRun : Except Str ResState :=
  resolveDependencies chainReg 1000 [(List.replicate 1 'p', [ '*' ])] ResState.init 0

/-! ### Demo fixture for the deduplication claim -/

/-- A package assumed already resolved. -/
def demoPkgA : ResolvedPackage :=
  { name := ("a").data
    version := ("1.0.0").data
    integrity := []
    tarballUrl := ("u").data
    dependencies := []
    peerDependencies := none
    optionalDependencies := none }

/-- Resolution state in which `a` is already resolved. -/
def demoSt : ResState := ⟨[(("a").data, demoPkgA)], []⟩

/-- A registry resolving only `b`, whose dependencies request `a` again at a
different range. -/
def demoReg : Registry := fun name =>
  if name = ("b").data then
    some { versions := [(("2.0.0").data,
      { dist := some ⟨some (("i").data), none, some (("t").data)⟩
        dependencies := some [(("a").data, ("^9.0.0").data)]
        peerDependencies := none
        optionalDependencies := none })] }
  else none

/-- Dependency map requesting both `a` (already resolved) and `b`. -/
def demoDeps : DepMap := [(("a").data, [ '*' ]), (("b").data, [ '*' ])]

/-! ### The install pipeline (`install` in `src/cli/index.ts`)

State model: the store index (flattened to `(name, version)` keys — every
access in the source goes through `packages[name]?.versions[version]`), the
set of directories existing on disk, and the project lockfile.  The
lockfile file's content is abstracted to absent / malformed (JSON.parse
throws) / parsed; `sha256` is modelled as an injective encoding (its
preimage string); the download+extract pipeline is an oracle from tarball
URLs to sizes (`none` = the download threw, caught per package); the
linking phase touches only the project's `node_modules`, never the store or
the lockfile, and is modelled separately (`linkTree`). -/

/-- A store index record (the entry under `packages[name].versions[version]`). -/
structure StoreEntry where
  integrity : Str
  compressedSize : Nat
  originalSize : Nat
  dictionary : Str
  extractedPath : Option Str
deriving DecidableEq

/-- The store index, keyed by `(name, version)`. -/
abbrev StoreIndex := List ((Str × Str) × StoreEntry)

def lookupS (ix : StoreIndex) (k : Str × Str) : Option StoreEntry :=
  match ix with
  | [] => none
  | (k', e) :: rest => if k' = k then some e else lookupS rest k

def setS (ix : StoreIndex) (k : Str × Str) (e : StoreEntry) : StoreIndex :=
  match ix with
  | [] => [(k, e)]
  | (k', e') :: rest => if k' = k then (k', e) :: rest else (k', e') :: setS rest k e

/-- One entry of a parsed lockfile's `packages` object. -/
structure LockPkg where
  version : Str
  integrity : Str
  dependencies : Option DepMap
  tarballUrl : Option Str
deriving DecidableEq

/-- A parsed `pakk.lock`. -/
structure Lockfile where
  lockfileVersion : Nat
  packages : List (Str × LockPkg)
deriving DecidableEq

/-- Content of the lockfile path: absent file, unparsable JSON, or parsed. -/
inductive LockContent where
  | absent
  | malformed
  | valid (lf : Lockfile)
deriving DecidableEq

/-- `loadLockfile`: missing file is `null`; `JSON.parse` throwing is caught
and returns `null`; otherwise the parsed lockfile. -/
def loadLockfile : LockContent → Option Lockfile
  | .absent => none
  | .malformed => none
  | .valid lf => some lf

/-- Persistent system state seen by an install run. -/
structure Sys where
  index : StoreIndex
  fs : List Str
  lock : LockContent
deriving DecidableEq

/-- The environment: registry and the download+extract pipeline
(`downloadAndExtract`), which returns (downloadSize, extractedSize) or
throws (`none`, caught per package). -/
structure Env where
  reg : Registry
  fetchTar : Str → Option (Nat × Nat)

/-- The platform-dependent store root, abstracted to a fixed placeholder. -/
def STORE_PATH : Str := ("~/.cache/pakk-store").data

def PACKAGES_DIR : Str := STORE_PATH ++ ("/packages").data

/-- `hashPackage`: sha256 hex of `name@version`, modelled injectively by its
preimage (hash collisions are not modelled). -/
def hashPackage (name version : Str) : Str := name ++ '@' :: version

/-- `getPackageDir`: two-character shard prefix, then the hash. -/
def getPackageDir (hash : Str) : Str :=
  PACKAGES_DIR ++ '/' :: (hash.take 2) ++ '/' :: hash

/-- `key.replace(/@[^@]+$/, '')`: drop the last `@` and everything after it,
provided at least one non-`@` character follows it at the end of the
string; otherwise the key is unchanged. -/
def stripVersionKey (key : Str) : Str :=
  let rev := key.reverse
  let after := rev.takeWhile (fun c => c ≠ '@')
  match rev.dropWhile (fun c => c ≠ '@') with
  | [] => key
  | _ :: before => if after = [] then key else before.reverse

/-- The tarball URL reconstructed for lockfile entries that lack one: the
npm convention joining the registry host, the name, a dash path segment,
the name's last slash-separated component, and `-<version>.tgz`. -/
def reconstructUrl (name version : Str) : Str :=
  ("https://registry.npmjs.org/").data ++ name ++ ("/-/").data ++
    ((splitOn '/' name).getLastD []) ++ '-' :: version ++ (".tgz").data

/-- The `ResolvedPackage` rebuilt from one lockfile entry (`install`, fast
path): the name is the key with its `@version` suffix stripped, the
dependencies default to `{}`, and a missing or empty stored tarball URL is
replaced by the reconstructed one. -/
def lockEntryResolved (key : Str) (pkg : LockPkg) : ResolvedPackage :=
  let name := stripVersionKey key
  { name := name
    version := pkg.version
    integrity := pkg.integrity
    tarballUrl := orElseStr pkg.tarballUrl (reconstructUrl name pkg.version)
    dependencies := pkg.dependencies.getD []
    peerDependencies := none
    optionalDependencies := none }

/-- The whole resolved map rebuilt from a lockfile (`resolved.set` per
entry, in object order). -/
def lockResolved (lf : Lockfile) : RMap :=
  lf.packages.foldl
    (fun m kv => setA m (stripVersionKey kv.1) (lockEntryResolved kv.1 kv.2)) []

/-- The store-trust check of the fetch phase:
`existing?.extractedPath && existsSync(existing.extractedPath)`. -/
def storeHas (ix : StoreIndex) (fs : List Str) (name version : Str) : Bool :=
  match lookupS ix (name, version) with
  | some e =>
    match e.extractedPath with
    | some p => decide (p ∈ fs)
    | none => false
  | none => false

/-- The cached/toDownload partition loop of the fetch phase: returns
(cachedCount, toDownload) in iteration order. -/
def splitCached (ix : StoreIndex) (fs : List Str) : RMap → Nat × List ResolvedPackage
  | [] => (0, [])
  | kv :: rest =>
    let r := splitCached ix fs rest
    if storeHas ix fs kv.2.name kv.2.version then (r.1 + 1, r.2)
    else (r.1, kv.2 :: r.2)

/-- The download loop: for each package, `downloadAndExtract` into the
content-addressed directory, then update the store index and count the
download; a throwing download is caught (warning) and updates nothing. -/
def fetchPhase (env : Env) : List ResolvedPackage → StoreIndex → List Str →
    StoreIndex × List Str × Nat
  | [], ix, fs => (ix, fs, 0)
  | pkg :: rest, ix, fs =>
    match env.fetchTar pkg.tarballUrl with
    | none => fetchPhase env rest ix fs
    | some (ds, es) =>
      let dir := getPackageDir (hashPackage pkg.name pkg.version)
      let r := fetchPhase env rest
        (setS ix (pkg.name, pkg.version)
          { integrity := pkg.integrity
            compressedSize := ds
            originalSize := es
            dictionary := ("node_modules").data
            extractedPath := some dir })
        (dir :: fs)
      (r.1, r.2.1, r.2.2 + 1)

/-- The lockfile written at the end of an install: one entry
`name@version ↦ {version, integrity, dependencies, tarballUrl}` per
resolved package, in map order. -/
def mkLockfile (resolved : RMap) : Lockfile :=
  { lockfileVersion := 1
    packages := resolved.map (fun kv =>
      (kv.1 ++ '@' :: kv.2.version,
        { version := kv.2.version
          integrity := kv.2.integrity
          dependencies := some kv.2.dependencies
          tarballUrl := some kv.2.tarballUrl })) }

/-- Result of one install run. -/
structure InstallResult where
  resolved : RMap
  downloadCount : Nat
  cachedCount : Nat
  usedLockfile : Bool
  resolveEvents : List REvent
  sys : Sys
deriving DecidableEq

/-- `install(projectDir, options)` over the state model: load the store
index and lockfile; resolve from the lockfile when present and non-empty
(no registry traffic), else over the network; partition resolved packages
into cached/toDownload by the store-trust check; download the misses and
update index and filesystem; write the new lockfile.  The `--frozen` flag
is modelled away (the source loads the same lockfile on both sides of its
ternary), and the linking phase does not touch this state. -/
def install (env : Env) (fuel : Nat) (deps : DepMap) (sys : Sys) :
    Except Str InstallResult :=
  let lockfile := loadLockfile sys.lock
  let useLock : Option Lockfile :=
    match lockfile with
    | some lf => if lf.packages.length > 0 then some lf else none
    | none => none
  let res : Except Str (RMap × List REvent × Bool) :=
    match useLock with
    | some lf => .ok (lockResolved lf, [], true)
    | none =>
      match resolveDependencies env.reg fuel deps ResState.init 0 with
      | .error e => .error e
      | .ok st => .ok (st.resolved, st.events, false)
  match res with
  | .error e => .error e
  | .ok (resolved, events, usedLock) =>
    let split := splitCached sys.index sys.fs resolved
    let fetched := fetchPhase env split.2 sys.index sys.fs
    .ok { resolved := resolved
          downloadCount := fetched.2.2
          cachedCount := split.1
          usedLockfile := usedLock
          resolveEvents := events
          sys := { index := fetched.1
                   fs := fetched.2.1
                   lock := .valid (mkLockfile resolved) } }

/-- Whether an install run succeeded. -/
def isOkI : Except Str InstallResult → Bool
  | .ok _ => true
  | .error _ => false

/-! ### Fixtures for the install-level witnesses -/

/-- A total environment over the demo registry (all downloads succeed). -/
def demoEnv : Env := ⟨demoReg, fun _ => some (1, 1)⟩

/-- A resolved package whose store entry has lost its directory. -/
def stalePkg : ResolvedPackage :=
  { name := ("s").data
    version := ("1.0.0").data
    integrity := []
    tarballUrl := ("su").data
    dependencies := []
    peerDependencies := none
    optionalDependencies := none }

/-- The stale store entry: `extractedPath` set, but the directory is not in
the filesystem. -/
def staleEntry : StoreEntry :=
  { integrity := []
    compressedSize := 0
    originalSize := 0
    dictionary := ("node_modules").data
    extractedPath := some (("gone").data) }

def staleIx : StoreIndex := [(((("s").data), (("1.0.0").data)), staleEntry)]

def staleResolved : RMap := [((("s").data), stalePkg)]

def staleSys : Sys := ⟨staleIx, [], LockContent.absent⟩

instance {α β : Type} [DecidableEq α] [DecidableEq β] :
    DecidableEq (Except α β) := fun a b =>
  match a, b with
  | .ok x, .ok y =>
    match decEq x y with
    | isTrue h => isTrue (h ▸ rfl)
    | isFalse h => isFalse (fun he => h (Except.ok.inj he))
  | .error x, .error y =>
    match decEq x y with
    | isTrue h => isTrue (h ▸ rfl)
    | isFalse h => isFalse (fun he => h (Except.error.inj he))
  | .ok _, .error _ => isFalse (fun he => Except.noConfusion he)
  | .error _, .ok _ => isFalse (fun he => Except.noConfusion he)

/-- Blank install result (used only to read off a successful run's value in
closed witness statements). -/
def blankInstall : InstallResult :=
  ⟨[], 0, 0, false, [], ⟨[], [], LockContent.absent⟩⟩

def okI : Except Str InstallResult → InstallResult
  | .ok r => r
  | .error _ => blankInstall

/-- Erase the fields the lockfile does not store. -/
def stripResolved (p : ResolvedPackage) : ResolvedPackage :=
  { p with peerDependencies := none, optionalDependencies := none }

/-! ### Fixture for the idempotence witness -/

def idemReg : Registry := fun name =>
  if name = ("x").data then
    some { versions := [(("1.0.0").data,
      { dist := some ⟨some (("sha1").data), none, some (("xurl").data)⟩
        dependencies := none
        peerDependencies := none
        optionalDependencies := none })] }
  else none

def idemEnv : Env := ⟨idemReg, fun _ => some (2, 3)⟩

def idemDeps : DepMap := [(("x").data, ("^1.0.0").data)]

def idemSys : Sys := ⟨[], [], LockContent.absent⟩

/-! ### Recursive per-file linking (`linkPackage`) (C8)

`linkPackage` walks the source directory with `readdirSync`: directories
recurse (created as plain directories by `mkdirSync`), and each regular
file is linked individually — in hardlink mode `linkSync` inside a
`try`/`catch` whose handler writes a full byte copy
(`writeFileSync(dest, readFileSync(src))`); symlink mode the same with
`symlinkSync`; copy mode copies outright.  A pre-existing destination file
is `unlinkSync`ed first, so the produced tree is what exists at the
destination afterwards.  Success or failure of the link syscalls is an
environment oracle keyed by destination path.  The function is total — no
error escapes to the caller. -/

mutual
/-- A source file tree (what `readdirSync(..., withFileTypes)` exposes). -/
inductive FSTree where
  | file (content : Str)
  | dir (entries : FSEntries)

/-- Directory entries, in listing order. -/
inductive FSEntries where
  | nil
  | cons (name : Str) (t : FSTree) (rest : FSEntries)
end

/-- The `mode` argument of `linkPackage`. -/
inductive LinkMode where
  | hardlink
  | symlink
  | copy

/-- How a destination file was produced. -/
inductive LinkMethod where
  | hard
  | sym
  | copied

mutual
/-- The destination tree: each file records how it was produced and the
content an observer reads through it (a hardlink shares the source inode, a
symlink resolves to the source, a copy holds the same bytes). -/
inductive LinkedTree where
  | file (method : LinkMethod) (content : Str)
  | dir (entries : LinkedEntries)

inductive LinkedEntries where
  | nil
  | cons (name : Str) (t : LinkedTree) (rest : LinkedEntries)
end

/-- Which link syscalls succeed, per destination path (cross-device,
permission or platform failures). -/
structure LinkEnv where
  hardlinkOk : Str → Bool
  symlinkOk : Str → Bool

mutual
/-- `linkPackage(srcDir, destDir, mode)` for a single entry rooted at
`destPath`. -/
def linkTree (env : LinkEnv) (mode : LinkMode) : FSTree → Str → LinkedTree
  | .file content, destPath =>
    match mode with
    | .hardlink =>
      if env.hardlinkOk destPath then .file .hard content
      else .file .copied content
    | .symlink =>
      if env.symlinkOk destPath then .file .sym content
      else .file .copied content
    | .copy => .file .copied content
  | .dir entries, destPath => .dir (linkEntries env mode entries destPath)

/-- The `for (const entry of entries)` loop: recurse into each entry at
`join(destDir, entry.name)`. -/
def linkEntries (env : LinkEnv) (mode : LinkMode) : FSEntries → Str → LinkedEntries
  | .nil, _ => .nil
  | .cons name t rest, destPath =>
    .cons name (linkTree env mode t (destPath ++ '/' :: name))
      (linkEntries env mode rest destPath)
end

mutual
/-- The content an observer reads back from the destination tree. -/
def observed : LinkedTree → FSTree
  | .file _ content => .file content
  | .dir es => .dir (observedEntries es)

def observedEntries : LinkedEntries → FSEntries
  | .nil => .nil
  | .cons name t rest => .cons name (observed t) (observedEntries rest)
end

mutual
/-- The per-file fallback discipline: a hardlink where the syscall succeeds
at that path, otherwise a silent byte copy; symlink mode likewise; copy
mode always copies. -/
def fallbackOk (env : LinkEnv) (mode : LinkMode) : LinkedTree → Str → Prop
  | .file m _, destPath =>
    match mode with
    | .hardlink => m = (if env.hardlinkOk destPath then .hard else .copied)
    | .symlink => m = (if env.symlinkOk destPath then .sym else .copied)
    | .copy => m = .copied
  | .dir es, destPath => fallbackEntriesOk env mode es destPath

def fallbackEntriesOk (env : LinkEnv) (mode : LinkMode) :
    LinkedEntries → Str → Prop
  | .nil, _ => True
  | .cons name t rest, destPath =>
    fallbackOk env mode t (destPath ++ '/' :: name) ∧
      fallbackEntriesOk env mode rest destPath
end

/-! ### Dictionary auto-detection (`detectDictionaryType`, part_003) (C9)

The detectors test JavaScript regular expressions against the input and
count matches against thresholds.  We embed the regexes as an explicit
syntax tree and give `test` semantics with a backtracking matcher: `test`
asks only whether a match exists somewhere, so greediness and alternative
order are irrelevant and a fuel-bounded search is exact once the fuel
exceeds the deepest possible derivation (each star iteration must consume
a character, so derivation depth is at most the pattern size times the
text length; the fuel below is strictly larger). -/

/-- JavaScript `\s` (ECMA WhiteSpace plus LineTerminator). -/
def isJsWs (c : Char) : Bool :=
  c == ' ' || c == '\t' || c == '\n' || c == '\r' || c == '\x0b' ||
  c == '\x0c' || c == '\u00A0' || c == '\u1680' ||
  (decide ('\u2000' ≤ c) && decide (c ≤ '\u200A')) ||
  c == '\u2028' || c == '\u2029' || c == '\u202F' || c == '\u205F' ||
  c == '\u3000' || c == '\uFEFF'

/-- JavaScript `\w` (`[A-Za-z0-9_]`). -/
def isWordC (c : Char) : Bool := c.isAlphanum || c == '_'

/-- JavaScript LineTerminator (what `.` never matches and what the `m`-flag
anchors see). -/
def isLineTerm (c : Char) : Bool :=
  c == '\n' || c == '\r' || c == '\u2028' || c == '\u2029'

/-- Regular-expression syntax: literals (also case-insensitive for the
`i` flag), character classes, sequence, alternation, star, option, and the
anchors — `bos`/`eos` for `^`/`$` without the `m` flag, `bol`/`eol` with
it, `wb` for a word boundary. -/
inductive Rx where
  | eps
  | lit (c : Char)
  | liti (c : Char)
  | cls (p : Char → Bool)
  | seq (a b : Rx)
  | alt (a b : Rx)
  | star (a : Rx)
  | opt (a : Rx)
  | bos
  | bol
  | eos
  | eol
  | wb

def rxSize : Rx → Nat
  | .seq a b => rxSize a + rxSize b + 1
  | .alt a b => rxSize a + rxSize b + 1
  | .star a => rxSize a + 1
  | .opt a => rxSize a + 1
  | _ => 1

/-- Word boundary: exactly one of the neighbouring characters is a word
character. -/
def atWb (prev : Option Char) (s : Str) : Bool :=
  (match prev with | none => false | some c => isWordC c) !=
    (match s with | [] => false | c :: _ => isWordC c)

/-- Backtracking matcher in continuation style.  `prev` is the character
just before the current position (`none` at the start of the input), so the
anchors and `\b` can look left.  A star iteration must consume at least one
character — for `test`-existence this matches the language of the
JavaScript star exactly and bounds the recursion, so the fuel in `rtest`
is never exhausted on a real match. -/
def mrun : Nat → Rx → Option Char → Str → (Option Char → Str → Bool) → Bool
  | 0, _, _, _, _ => false
  | fuel + 1, r, prev, s, k =>
    match r with
    | .eps => k prev s
    | .lit c =>
      match s with
      | [] => false
      | x :: rest => if x = c then k (some x) rest else false
    | .liti c =>
      match s with
      | [] => false
      | x :: rest => if x.toLower = c.toLower then k (some x) rest else false
    | .cls p =>
      match s with
      | [] => false
      | x :: rest => if p x then k (some x) rest else false
    | .seq a b => mrun fuel a prev s (fun p2 s2 => mrun fuel b p2 s2 k)
    | .alt a b => mrun fuel a prev s k || mrun fuel b prev s k
    | .star a =>
      (mrun fuel a prev s (fun p2 s2 =>
        if s2.length < s.length then mrun fuel (.star a) p2 s2 k else false)) ||
      k prev s
    | .opt a => mrun fuel a prev s k || k prev s
    | .bos => if prev.isNone then k prev s else false
    | .bol =>
      match prev with
      | none => k prev s
      | some c => if isLineTerm c then k prev s else false
    | .eos => if s.isEmpty then k prev s else false
    | .eol =>
      match s with
      | [] => k prev s
      | c :: _ => if isLineTerm c then k prev s else false
    | .wb => if atWb prev s then k prev s else false

/-- Try a match at every start position (JavaScript `RegExp.prototype.test`). -/
def rtestAux (r : Rx) (fuel : Nat) : Option Char → Str → Bool
  | prev, [] => mrun fuel r prev [] (fun _ _ => true)
  | prev, c :: rest =>
    mrun fuel r prev (c :: rest) (fun _ _ => true) || rtestAux r fuel (some c) rest

def rtest (r : Rx) (s : Str) : Bool :=
  rtestAux r ((rxSize r + 2) * (s.length + 2)) none s

/-- How many of the patterns match (the source counts matches in a loop
with an early return at the threshold; the tests are pure, so that equals
comparing the final count). -/
def countMatches (ps : List Rx) (s : Str) : Nat :=
  (ps.filter (fun r => rtest r s)).length

def rcat : List Rx → Rx
  | [] => .eps
  | [r] => r
  | r :: rest => .seq r (rcat rest)

def ralt : List Rx → Rx
  | [] => .cls (fun _ => false)
  | [r] => r
  | r :: rest => .alt r (ralt rest)

/-- A literal string. -/
def rs (s : String) : Rx := rcat (s.data.map Rx.lit)

/-- A literal string under the `i` flag. -/
def rsi (s : String) : Rx := rcat (s.data.map Rx.liti)

def rplus (r : Rx) : Rx := .seq r (.star r)

/-- `\x7b m \x7d` repetition: exactly `n` copies. -/
def rrep : Nat → Rx → Rx
  | 0, _ => .eps
  | n + 1, r => .seq r (rrep n r)

/-- At most `n` copies (`\x7b m , n \x7d` is `rrep m` then `rupto (n - m)`). -/
def rupto : Nat → Rx → Rx
  | 0, _ => .eps
  | n + 1, r => .opt (.seq r (rupto n r))

def cpl (l : List Char) : Rx := .cls (fun c => l.contains c)

def cmn (l : List Char) : Rx := .cls (fun c => !(l.contains c))

def lbr : Char := '\x7b'

def rbr : Char := '\x7d'

def btk : Char := '\x60'

def wsC : Rx := .cls isJsWs

def wsS : Rx := .star wsC

def wsP : Rx := rplus wsC

def wordC : Rx := .cls isWordC

/-- `.` (anything but a line terminator; no `s` flag is used). -/
def dotC : Rx := .cls (fun c => !(isLineTerm c))

/-- `[\s\S]`. -/
def anyC : Rx := .cls (fun _ => true)

def quoteC : Rx := cpl ['"', '\x27']

def notRbrC : Rx := .cls (fun c => !(c == rbr))

def wsGtC : Rx := .cls (fun c => isJsWs c || c == '>')

def lowerC : Rx := .cls (fun c => decide ('a' ≤ c) && decide (c ≤ 'z'))

def wordDashC : Rx := .cls (fun c => isWordC c || c == '-')

def wordDotC : Rx := .cls (fun c => isWordC c || c == '.')

def hexC : Rx := .cls (fun c =>
  c.isDigit || (decide ('a' ≤ c) && decide (c ≤ 'f')) ||
    (decide ('A' ≤ c) && decide (c ≤ 'F')))

/-- `\bName\b`. -/
def wbW (s : String) : Rx := rcat [.wb, rs s, .wb]

/-- `\bName\s*\(`. -/
def hookP (s : String) : Rx := rcat [.wb, rs s, wsS, .lit '(']

/-- `Name\s*\(`. -/
def callP (s : String) : Rx := rcat [rs s, wsS, .lit '(']

/-- `Name\s*\(\)`. -/
def callE (s : String) : Rx := rcat [rs s, wsS, rs "()"]

/-- The 17 patterns of `isHtml` (all but the last two carry the `i` flag). -/
def htmlPatterns : List Rx := [
  rcat [rsi "<!DOCTYPE", wsP, rsi "html"],
  rcat [rsi "<html", wsGtC],
  rcat [rsi "<head", wsGtC],
  rcat [rsi "<body", wsGtC],
  rcat [rsi "<div", wsGtC],
  rcat [rsi "<script", wsGtC],
  rcat [rsi "<style", wsGtC],
  rcat [rsi "<link", wsGtC],
  rcat [rsi "<meta", wsGtC],
  rcat [rsi "<title", wsGtC],
  rcat [rsi "<p", wsGtC],
  rcat [rsi "<span", wsGtC],
  rcat [rsi "<a", wsP, rsi "href"],
  rcat [rsi "<img", wsP, rsi "src"],
  rcat [rsi "<svg", wsGtC],
  rcat [rs "class=", quoteC],
  rcat [rs "id=", quoteC]]

/-- The 8 patterns of `isCss`. -/
def cssPatterns : List Rx := [
  rcat [rs "@media", wsS, .lit '('],
  rcat [rs "@keyframes", wsP, wordC],
  rcat [rs "@import", wsP, quoteC],
  rcat [rs "@font-face", wsS, .lit lbr],
  rcat [.lit '.', lowerC, .star wordDashC, wsS, .lit lbr],
  rcat [.lit '#', lowerC, .star wordDashC, wsS, .lit lbr],
  rcat [.lit ':', wsS, ralt [rs "flex", rs "grid", rs "block", rs "none", rs "inline"]],
  rcat [.lit lbr, .star notRbrC, .lit ':', wsS, rplus notRbrC, .lit ';',
    .star notRbrC, .lit rbr]]

/-- The 9 strong Python indicators (`m`-flag anchors become `bol`/`eol`). -/
def strongPythonPatterns : List Rx := [
  rcat [.bol, rs "def", wsP, rplus wordC, wsS, .lit '(', .star (cmn [')']),
    .lit ')', wsS, .lit ':'],
  rcat [.bol, rs "class", wsP, rplus wordC, .star dotC, .lit ':', wsS, .eol],
  rcat [rs "if", wsP, rs "__name__", wsS, rs "==", wsS, quoteC,
    rs "__main__", quoteC],
  rcat [rs "def", wsP, rs "__init__", wsS, .lit '(', wsS, rs "self"],
  rcat [rs "def", wsP, rs "__", rplus wordC, rs "__", wsS, .lit '('],
  rcat [.lit '@', rplus wordC, wsS, .lit '\n', wsS, rs "def"],
  rcat [rs "except", wsP, rplus wordC, wsS, .lit ':'],
  rcat [rs "elif", wsP, .star dotC, .lit ':'],
  rcat [.bol, wsS, rs "self.", rplus wordC, wsS, .lit '=']]

/-- The 4 weak Python indicators. -/
def weakPythonPatterns : List Rx := [
  rcat [.bol, rs "from", wsP, rplus wordC, wsP, rs "import"],
  ralt [wbW "True", wbW "False", wbW "None"],
  callP "print",
  rcat [.lit ':', wsS, .lit '\n', rrep 4 wsC]]

/-- The 18 patterns of `isRust`. -/
def rustPatterns : List Rx := [
  rcat [.bol, rs "fn", wsP, rplus wordC],
  rcat [.bol, rs "pub", wsP, rs "fn"],
  rcat [.bol, rs "struct", wsP, rplus wordC],
  rcat [.bol, rs "enum", wsP, rplus wordC],
  rcat [.bol, rs "impl", wsP],
  rcat [.bol, rs "trait", wsP, rplus wordC],
  rcat [.bol, rs "use", wsP, rplus wordC, rs "::"],
  rcat [.bol, rs "mod", wsP, rplus wordC],
  rcat [rs "let", wsP, rs "mut", wsP],
  rs ".unwrap()",
  rs ".expect(",
  ralt [rs "Option<", rs "Result<", rs "Vec<", rs "Box<", rs "Rc<", rs "Arc<"],
  ralt [rs "Some(", rs "None", rs "Ok(", rs "Err("],
  rcat [.lit '?', wsS, .opt (.lit ';'), wsS, .eol],
  rs "#[derive(",
  ralt [rs "&self", rs "&mut self"],
  rcat [rs "::", wsS, rs "new", wsS, .lit '('],
  rcat [rs "->", .star dotC, .lit lbr]]

/-- The 17 patterns of `isGo`. -/
def goPatterns : List Rx := [
  rcat [.bol, rs "package", wsP, rplus wordC],
  rcat [.bol, rs "import", wsP, .lit '('],
  rcat [.bol, rs "func", wsP, rplus wordC, wsS, .lit '('],
  rcat [.bol, rs "func", wsP, .lit '(', rplus wordC, wsP, .opt (.lit '*'),
    rplus wordC, .lit ')'],
  rcat [.bol, rs "type", wsP, rplus wordC, wsP, rs "struct"],
  rcat [.bol, rs "type", wsP, rplus wordC, wsP, rs "interface"],
  rcat [rs "if", wsP, rs "err", wsS, rs "!=", wsS, rs "nil"],
  rcat [.lit ':', wsS, .lit '=', wsS],
  wbW "nil",
  rcat [.wb, rs "defer", wsP],
  rcat [.wb, rs "go", wsP, rs "func"],
  rcat [.wb, rs "chan", wsP],
  ralt [rcat [rs "<-", rplus wordC], rcat [rs "<-", wsS, rplus wordC]],
  rs ".Error()",
  rs "fmt.Print",
  ralt [rs "make(map[", rs "make([]"],
  rcat [.wb, rs "func", wsS, .lit '(']]

/-- `[\w<>[\]]` of the Java field pattern. -/
def javaTypeC : Rx := .cls (fun c =>
  isWordC c || c == '<' || c == '>' || c == '[' || c == ']')

/-- The 18 patterns of `isJava`. -/
def javaPatterns : List Rx := [
  rcat [.bol, rs "package", wsP, rplus wordDotC, .lit ';'],
  rcat [.bol, rs "import", wsP, rplus wordDotC, .lit ';'],
  rcat [.bol, rs "import", wsP, rs "static", wsP, rplus wordDotC, .lit ';'],
  rcat [rs "public", wsP, rs "class", wsP, rplus wordC],
  rcat [rs "public", wsP, rs "interface", wsP, rplus wordC],
  rcat [rs "public", wsP, rs "enum", wsP, rplus wordC],
  rcat [rs "public", wsP, rs "static", wsP, rs "void", wsP, rs "main"],
  rcat [rs "private", wsP, .opt (rcat [rs "final", wsP]), rplus javaTypeC,
    wsP, rplus wordC],
  rs "@Override",
  rs "@Autowired",
  ralt [rs "@Service", rs "@Repository", rs "@Controller", rs "@Component"],
  rs "System.out.print",
  rs ".equals(",
  rs ".hashCode()",
  rcat [rs "new", wsP, rplus wordC, wsS, .lit '<'],
  rcat [rs "throws", wsP, rplus wordC, rs "Exception"],
  rcat [rs "implements", wsP, rplus wordC],
  rcat [rs "extends", wsP, rplus wordC]]

/-- The 18 patterns of `isCpp`. -/
def cppPatterns : List Rx := [
  rcat [rs "#include", wsS, .lit '<', rplus wordC, .lit '>'],
  rcat [.bol, rs "class", wsP, rplus wordC, wsS, cpl [':', lbr]],
  rcat [.bol, rs "namespace", wsP, rplus wordC],
  rs "std::",
  ralt [rs "public:", rs "private:", rs "protected:"],
  rcat [rs "virtual", wsP],
  rcat [rs "template", wsS, .lit '<'],
  rcat [rs "typename", wsP],
  rcat [rs "using", wsP, rs "namespace"],
  rcat [rs "new", wsP, rplus wordC, .lit '('],
  rcat [rs "delete", wsP, rplus wordC],
  rs "nullptr",
  rcat [rs "auto", wsP, rplus wordC, wsS, .lit '='],
  ralt [rcat [rs "cout", wsS, rs "<<"], rcat [rs "cin", wsS, rs ">>"]],
  rcat [rs "constexpr", wsP],
  rcat [rs "->", wsS, rplus wordC, wsS, .lit '('],
  rcat [rs "::", wsS, rplus wordC, wsS, .lit '('],
  ralt [rs "unique_ptr", rs "shared_ptr", rs "make_unique", rs "make_shared"]]

/-- The 16 patterns of `isC`. -/
def cPatterns : List Rx := [
  rcat [rs "#include", wsS, rs "<stdio.h>"],
  rcat [rs "#include", wsS, rs "<stdlib.h>"],
  rcat [rs "#include", wsS, rs "<string.h>"],
  rcat [rs "#define", wsP, rplus wordC],
  rcat [.bol, rs "typedef", wsP, rs "struct"],
  rcat [.bol, rs "struct", wsP, rplus wordC, wsS, .lit lbr],
  rcat [rs "int", wsP, rs "main", wsS, .lit '('],
  callP "printf",
  callP "scanf",
  callP "malloc",
  callP "free",
  callP "sizeof",
  rs "NULL",
  ralt [rs "->", rcat [.lit '&', rplus wordC], rcat [.lit '*', rplus wordC]],
  rcat [rs "unsigned", wsP, ralt [rs "int", rs "char", rs "long"]],
  rcat [rs "void", wsS, .lit '*']]

/-- The 47 strong JS/TS indicators of `isJavaScriptOrTypeScript`, in source
order (the contract/abi pattern carries the `i` flag). -/
def strongJsPatterns : List Rx := [
  rcat [.bol, rs "import", wsP, .star dotC, wsP, rs "from", wsP, quoteC],
  rcat [.bol, rs "import", wsP, .lit lbr, rplus notRbrC, .lit rbr, wsP,
    rs "from", wsP, quoteC],
  rcat [.bol, rs "export", wsP, ralt [rs "default", rs "const", rs "function",
    rs "class", rs "type", rs "interface"], wsP],
  rcat [.bol, rs "export", wsP, .lit lbr],
  rcat [.wb, rs "const", wsP, rplus wordC, wsS, .lit '=', wsS, .lit '('],
  rcat [.wb, rs "let", wsP, rplus wordC, wsS, .lit '=', wsS,
    cpl ['[', lbr, '(', '\x27', '"']],
  rcat [.wb, rs "var", wsP, rplus wordC, wsS, .lit '='],
  rcat [rs "=>", wsS, cpl [lbr, '(']],
  rcat [.wb, rs "function", wsS, .opt (.lit '*'), wsS, .star wordC, wsS,
    .lit '(', .star (cmn [')']), .lit ')', wsS, .lit lbr],
  rcat [.wb, rs "class", wsP, rplus wordC, wsS,
    .opt (rcat [rs "extends", wsP, rplus wordC, wsS]), .lit lbr],
  rcat [.lit ':', wsS, ralt [rs "string", rs "number", rs "boolean", rs "any",
    rs "void", rs "never", rs "unknown", rs "null", rs "undefined"], wsS,
    cpl [';', ',', ')', '=', ']']],
  rcat [rs "interface", wsP, rplus wordC, wsS,
    .opt (rcat [.lit '<', rplus (cmn ['>']), .lit '>']), wsS, .lit lbr],
  rcat [rs "type", wsP, rplus wordC, wsS,
    .opt (rcat [.lit '<', rplus (cmn ['>']), .lit '>']), wsS, .lit '='],
  rcat [rs "as", wsP, ralt [rs "const", rs "string", rs "number", rs "any",
    rs "unknown"]],
  rcat [.lit '<', rplus wordC,
    .star (rcat [wsS, .lit ',', wsS, rplus wordC]), .lit '>', wsS, .lit '('],
  rcat [rs ".then", wsS, .lit '(', wsS, .opt (rcat [rs "async", wsS]),
    .opt (.lit '(')],
  rcat [rs ".catch", wsS, .lit '(', wsS, .opt (.lit '(')],
  rcat [rs "async", wsP, ralt [rs "function", rs "(",
    rcat [rplus wordC, wsS, rs "=>"]]],
  rcat [rs "await", wsP, rplus wordC],
  rcat [rs "console.", ralt [rs "log", rs "error", rs "warn", rs "info",
    rs "debug"], wsS, .lit '('],
  rcat [rs "require", wsS, .lit '(', wsS, quoteC],
  rcat [rs "module.exports", wsS, .lit '='],
  rcat [rs "Object.", ralt [rs "keys", rs "values", rs "entries", rs "assign",
    rs "freeze"], wsS, .lit '('],
  rcat [rs "Array.", ralt [rs "isArray", rs "from", rs "of"], wsS, .lit '('],
  rcat [rs "JSON.", ralt [rs "parse", rs "stringify"], wsS, .lit '('],
  rcat [rs "Promise.", ralt [rs "all", rs "race", rs "resolve", rs "reject"],
    wsS, .lit '('],
  ralt [wbW "ethers", wbW "viem", wbW "wagmi"],
  ralt [wbW "web3", wbW "Web3"],
  ralt [rcat [wbW "provider", .star dotC, wbW "getSigner"],
    rcat [wbW "getSigner", .star dotC, wbW "provider"]],
  ralt [wbW "useAccount", wbW "useConnect", wbW "useDisconnect"],
  ralt [wbW "connectAsync", wbW "disconnectAsync"],
  ralt [wbW "RainbowKit", wbW "rainbow"],
  ralt [wbW "MetaMask", wbW "metamask"],
  ralt [rcat [.wb, rsi "contract", .wb, .star dotC, .wb, rsi "abi", .wb],
    rcat [.wb, rsi "abi", .wb, .star dotC, .wb, rsi "contract", .wb]],
  rcat [rs "0x", rrep 40 hexC],
  rcat [.lit '@', ralt [rs "Component", rs "Injectable", rs "NgModule",
    rs "Directive", rs "Pipe", rs "Input", rs "Output"], wsS, .lit '('],
  ralt [wbW "ngOnInit", wbW "ngOnDestroy", wbW "ngOnChanges"],
  ralt [wbW "Observable", wbW "Subject", wbW "BehaviorSubject"],
  rcat [rs ".subscribe", wsS, .lit '('],
  rcat [.wb, rs "from", wsS, .lit '(', wsS, quoteC, rs "rxjs", quoteC],
  ralt [wbW "useState", wbW "useEffect", wbW "useCallback", wbW "useMemo",
    wbW "useRef"],
  rcat [.wb, rs "React.", ralt [rs "createElement", rs "Component",
    rs "Fragment", rs "memo", rs "forwardRef"], .wb],
  ralt [rcat [.wb, .opt (.lit '_'), rs "jsx", .wb],
    rcat [.wb, .opt (.lit '_'), rs "jsxs", .wb]],
  rcat [rs "process.", ralt [rs "env", rs "argv", rs "cwd", rs "exit"]],
  ralt [wbW "__dirname", wbW "__filename"],
  rcat [rs "document.", ralt [rs "getElementById", rs "querySelector",
    rs "createElement"]],
  rcat [rs "window.", ralt [rs "location", rs "localStorage",
    rs "sessionStorage", rs "addEventListener"]]]

/-- The 10 weak JS indicators. -/
def weakJsPatterns : List Rx := [
  rcat [.wb, rs "const", wsP, rplus wordC, wsS, .lit '='],
  rcat [.wb, rs "let", wsP, rplus wordC, wsS, .lit '='],
  rcat [rs ".map", wsS, .lit '('],
  rcat [rs ".filter", wsS, .lit '('],
  rcat [rs ".reduce", wsS, .lit '('],
  rcat [rs ".forEach", wsS, .lit '('],
  rcat [.wb, rs "new", wsP, rplus wordC, wsS, .lit '('],
  rcat [.wb, rs "throw", wsP, rs "new", wsP, .star wordC, rs "Error"],
  rcat [.wb, rs "try", wsS, .lit lbr],
  rcat [.wb, rs "catch", wsS, .lit '(', rplus wordC, .lit ')', wsS, .lit lbr]]

/-- The 11 strong minification indicators (each worth 2 points). -/
def strongMinifiedPatterns : List Rx := [
  ralt [rs "webpackJsonp", rs "__webpack_require__", rs "__webpack_exports__"],
  rs "[\"__esModule\"]",
  ralt [rs "__TURBOPACK__", rs "__turbopack_"],
  ralt [wbW "_interopRequireDefault", wbW "_interopRequireWildcard"],
  rcat [.wb, rs "defineProperty", wsS, .lit '(', wsS, rs "exports", wsS,
    .lit ','],
  rcat [rs "void", wsS, .lit '0', .wb],
  ralt [rcat [rs "!0", .wb], rcat [rs "!1", .wb]],
  rcat [.wb, rs "typeof", wsP, wordC, wsS, cpl ['!', '='], rs "=="],
  rcat [cpl [';', ','], wordC, .lit '=', cmn [',', ';'],
    rupto 29 (cmn [',', ';']), cpl [';', ','], wordC, .lit '='],
  rcat [.lit ')', wsS, .lit lbr, rupto 50 notRbrC, .lit rbr, wsS, .lit '('],
  rcat [wordC, .lit '.', wordC, .lit '.', wordC, .lit '.', wordC, .lit '.',
    wordC]]

/-- The 4 IIFE indicators (each worth 1 point; no `m` flag, so `^` is the
start of the sample). -/
def iifePatterns : List Rx := [
  rcat [.bos, wsS, cpl ['!', '('], rs "function", wsS, .lit '('],
  rcat [.bos, wsS, .lit '(', rs "function", wsS, .lit '(', .opt wordC,
    .opt (.lit ','), .opt wordC, .opt (.lit ','), .opt wordC, .lit ')', wsS,
    .lit lbr],
  rcat [.bos, wsS, .lit '(', wsS, .lit '(', wsS, .lit ')', wsS, rs "=>", wsS,
    .lit lbr],
  rcat [.bos, wsS, .lit '(', wsS, rs "function", wsS, .lit '(', wsS, .lit ')',
    wsS, .lit lbr]]

/-- `function\s*\(\s*\w\s*,\s*\w\s*,\s*\w\s*\)`. -/
def shortFn3 : Rx := rcat [rs "function", wsS, .lit '(', wsS, wordC, wsS,
  .lit ',', wsS, wordC, wsS, .lit ',', wsS, wordC, wsS, .lit ')']

/-- `\(\s*\w\s*,\s*\w\s*\)\s*=>`. -/
def shortArrow2 : Rx := rcat [.lit '(', wsS, wordC, wsS, .lit ',', wsS, wordC,
  wsS, .lit ')', wsS, rs "=>"]

/-- `\bvar\s+\w\s*,\s*\w\s*,\s*\w\s*[,;=]`. -/
def shortVar3 : Rx := rcat [.wb, rs "var", wsP, wordC, wsS, .lit ',', wsS,
  wordC, wsS, .lit ',', wsS, wordC, wsS, cpl [',', ';', '=']]

/-- A block comment at least 10 characters long. -/
def blockCommentRx : Rx := rcat [rs "/*", rrep 10 anyC, .star anyC, rs "*/"]

/-- A line comment at least 5 characters long. -/
def lineCommentRx : Rx := rcat [rs "//", rrep 5 (cmn ['\n']),
  .star (cmn ['\n'])]

/-- The 17 patterns of `isVue`. -/
def vuePatterns : List Rx := [
  rs "__VUE__",
  rs "createVNode(",
  rs "createElementVNode(",
  rs "defineComponent(",
  rs "_createVNode(",
  rs "_createElementVNode(",
  rs "_resolveComponent(",
  hookP "ref",
  hookP "reactive",
  hookP "computed",
  callP "onMounted",
  callP "onUnmounted",
  callE "useRouter",
  callE "useRoute",
  rs "defineNuxtConfig",
  callP "useFetch",
  callP "useAsyncData"]

/-- The patterns of `isReact`, in source order. -/
def reactPatterns : List Rx := [
  rs "__REACT",
  rs "React.createElement",
  rcat [rs "React.", ralt [rs "Component", rs "PureComponent", rs "Fragment",
    rs "memo", rs "forwardRef", rs "lazy", rs "Suspense"]],
  ralt [hookP "jsx", hookP "jsxs"],
  ralt [callP "_jsx", callP "_jsxs"],
  ralt [callP "createRoot", callP "hydrateRoot"],
  rcat [rs "ReactDOM.", ralt [rs "render", rs "createRoot", rs "hydrateRoot"]],
  hookP "useState",
  hookP "useEffect",
  hookP "useCallback",
  hookP "useMemo",
  hookP "useRef",
  hookP "useContext",
  hookP "useReducer",
  hookP "useLayoutEffect",
  hookP "useImperativeHandle",
  hookP "useDebugValue",
  hookP "useTransition",
  hookP "useDeferredValue",
  hookP "useId",
  hookP "useSyncExternalStore",
  callE "useRouter",
  callE "usePathname",
  callE "useSearchParams",
  callE "useParams",
  rs "\"use client\"",
  rs "\"use server\"",
  rcat [.wb, rs "next/", rplus wordC],
  ralt [rs "getServerSideProps", rs "getStaticProps", rs "getStaticPaths"],
  hookP "useQuery",
  hookP "useMutation",
  hookP "useInfiniteQuery",
  ralt [rs "QueryClient", rs "QueryClientProvider"],
  hookP "useAccount",
  hookP "useConnect",
  hookP "useDisconnect",
  hookP "useNetwork",
  hookP "useBalance",
  hookP "useContractRead",
  hookP "useContractWrite",
  hookP "usePrepareContractWrite",
  hookP "useWaitForTransaction",
  hookP "useSignMessage",
  hookP "useSendTransaction",
  ralt [rs "RainbowKitProvider", rs "ConnectButton"],
  ralt [rs "WagmiConfig", rs "WagmiProvider"],
  hookP "useSelector",
  hookP "useDispatch",
  hookP "useStore",
  hookP "useAtom",
  hookP "useRecoilState",
  hookP "useRecoilValue",
  rcat [.wb, rs "styled", wsS, .lit '.'],
  rcat [.wb, rs "css", wsS, .lit btk],
  rcat [.wb, rs "className", wsS, .lit '='],
  hookP "classNames",
  hookP "clsx",
  hookP "cn",
  hookP "useForm",
  hookP "useFormContext",
  hookP "register",
  hookP "handleSubmit"]

def isHtml (text : Str) : Bool := decide (3 ≤ countMatches htmlPatterns text)

def isCss (text : Str) : Bool := decide (2 ≤ countMatches cssPatterns text)

/-- JS `String.prototype.trim` (strips `\s`). -/
def jsTrim (s : Str) : Str :=
  ((s.dropWhile isJsWs).reverse.dropWhile isJsWs).reverse

/-- The brace/bracket balance loop of `isJson` over the first 1000
characters: state is (brace balance, bracket balance, in-string, escaped). -/
def jsonLoop : Str → Int → Int → Bool → Bool → Int × Int
  | [], br, bk, _, _ => (br, bk)
  | ch :: rest, br, bk, inStr, esc =>
    if esc then jsonLoop rest br bk inStr false
    else if ch = '\\' then jsonLoop rest br bk inStr true
    else if ch = '"' then jsonLoop rest br bk (!inStr) esc
    else if inStr then jsonLoop rest br bk inStr esc
    else if ch = lbr then jsonLoop rest (br + 1) bk inStr esc
    else if ch = rbr then jsonLoop rest (br - 1) bk inStr esc
    else if ch = '[' then jsonLoop rest br (bk + 1) inStr esc
    else if ch = ']' then jsonLoop rest br (bk - 1) inStr esc
    else jsonLoop rest br bk inStr esc

def isJson (text : Str) : Bool :=
  let trimmed := jsTrim text
  match trimmed.head? with
  | none => false
  | some ch =>
    if ch = lbr || ch = '[' then
      let bb := jsonLoop (trimmed.take 1000) 0 0 false false
      decide (0 ≤ bb.1) && decide (0 ≤ bb.2)
    else false

def isPython (text : Str) : Bool :=
  let strong := countMatches strongPythonPatterns text
  if 2 ≤ strong then true
  else if 1 ≤ strong then
    decide (3 ≤ strong + countMatches weakPythonPatterns text)
  else false

def isRust (text : Str) : Bool := decide (3 ≤ countMatches rustPatterns text)

def isGo (text : Str) : Bool := decide (3 ≤ countMatches goPatterns text)

def isJava (text : Str) : Bool := decide (3 ≤ countMatches javaPatterns text)

def isCpp (text : Str) : Bool := decide (3 ≤ countMatches cppPatterns text)

/-- `isC` first rules out C++ (`if (isCpp(text)) return false`). -/
def isC (text : Str) : Bool :=
  if isCpp text then false
  else decide (3 ≤ countMatches cPatterns text)

def isJavaScriptOrTypeScript (text : Str) : Bool :=
  let strong := countMatches strongJsPatterns text
  if 2 ≤ strong then true
  else if 1 ≤ strong then
    decide (3 ≤ strong + countMatches weakJsPatterns text)
  else false

/-- `isMinifiedJs`.  The three float-ratio comparisons of the source
(average line length, whitespace ratio, newline ratio) are modelled as the
equivalent exact-rational comparisons by cross-multiplying the integer
counts; the IEEE rounding of the quotient is abstracted away. -/
def isMinifiedJs (text : Str) : Bool :=
  let lines := splitOn '\n' text
  if 500 * max lines.length 1 < text.length then true
  else
    let sample := text.take 8000
    let s1 := 2 * countMatches strongMinifiedPatterns sample
    let s2 := s1 + countMatches iifePatterns sample
    let s3 := s2 + (if rtest shortFn3 sample then 1 else 0)
    let s4 := s3 + (if rtest shortArrow2 sample then 1 else 0)
    let s5 := s4 + (if rtest shortVar3 sample then 1 else 0)
    let wsCount := (sample.filter isJsWs).length
    let nlCount := (sample.filter (fun ch => ch == '\n')).length
    let s6 := s5 +
      (if 100 * wsCount < 8 * sample.length && 1000 < sample.length then 3
       else if 100 * wsCount < 12 * sample.length && 1000 < sample.length then 2
       else 0)
    let s7 := s6 +
      (if 1000 * nlCount < 2 * sample.length && 2000 < sample.length then 2
       else 0)
    let s8 := s7 +
      (if !(rtest blockCommentRx sample) && !(rtest lineCommentRx sample) &&
          3000 < sample.length then 1
       else 0)
    decide (3 ≤ s8)

def isVue (text : Str) : Bool := decide (2 ≤ countMatches vuePatterns text)

def isReact (text : Str) : Bool := decide (2 ≤ countMatches reactPatterns text)

/-- The dictionary identifiers `detectDictionaryType` can return. -/
inductive DictionaryType where
  | html
  | css
  | json
  | javascript
  | vue
  | react
  | typescript
  | python
  | rust
  | go
  | java
  | cpp
  | c
  deriving DecidableEq

/-- `detectDictionaryType` from the dictionary manager (string input; the
Buffer overload only truncates to 50000 bytes before the same tests). -/
def detectDictionaryType (text : Str) : DictionaryType :=
  if isHtml text then .html
  else if isCss text then .css
  else if isJson text then .json
  else if isMinifiedJs text then .javascript
  else if isJavaScriptOrTypeScript text then
    if isVue text then .vue
    else if isReact text then .react
    else .typescript
  else if isPython text then .python
  else if isRust text then .rust
  else if isGo text then .go
  else if isJava text then .java
  else if isCpp text then .cpp
  else if isC text then .c
  else .typescript

/-- A snippet holding the JS import pattern and two strong Python markers. -/
def pySnippet : Str := ("import x from 'y'\ndef f():\nelif a:").data

/-- The spec scenario itself: the JS import pattern plus the single Python
marker `def f():`. -/
def jsPySnippet : Str := ("import x from 'y'\ndef f():").data

/-! ### The event-loop interleavings of the batched traversal (C2)

`resolveDependencies` runs its batch through `Promise.all(batch.map(async
([name, range]) => ...))`.  On the single-threaded event loop each closure
executes synchronously from its start — the `if (resolved.has(name))
return` re-check and the start of `fetchPackageMetadata(name)` — up to the
`await`, where it suspends; the order in which the suspended closures
resume is decided by network completion order, i.e. by a scheduler.  The
resume segment (process metadata, `resolved.set(name, pkg)`, and the
synchronous prefix of the recursive call: depth guard, `toResolve` filter,
spawning of the child closures up to their own awaits) runs atomically.
There is NO `resolved.has` re-check between the await and `resolved.set`.
The `Promise.all` joins (a parent completing once its children finish, and
the sequential per-32 batching) touch neither the map nor the log, so they
are elided here: that only enlarges the schedule set, and the concrete
schedule of the counterexample below respects the joins. -/

/-- A suspended per-package closure: it has passed the `resolved.has`
check, logged/started its metadata fetch, and sits at the `await`. -/
structure ATask where
  name : Str
  range : Str
  depth : Nat
deriving DecidableEq

/-- A configuration of the event loop: the shared `resolved` map, the event
log, and the suspended closures. -/
structure CConf where
  resolved : RMap
  events : List REvent
  tasks : List ATask
deriving DecidableEq

/-- The synchronous spawn segment of a batch at `depth`: filter the entries
against the map as it is NOW (`toResolve` filter and each closure's
immediate `resolved.has` re-check coincide — the map cannot change inside
one synchronous segment), then each kept closure starts its fetch and
suspends. -/
def spawnTasks (m : RMap) (deps : List (Str × Str)) (depth : Nat) :
    List ATask × List REvent :=
  let todo := deps.filter (fun e => ¬ (lookupA m e.1).isSome)
  (todo.map (fun e => ⟨e.1, e.2, depth⟩),
   todo.map (fun e => REvent.fetchMeta e.1 depth))

/-- The resume segment of a suspended closure against the CURRENT shared
map `m`: exactly the post-`await` half of the per-package body — metadata
processing and `resolved.set` with no `has` re-check — followed by the
synchronous prefix of the recursive `resolveDependencies` call (depth
guard, whose throw the per-package catch downgrades to a warning; filter;
child spawns).  Returns the new map, this segment's events, and the newly
spawned tasks. -/
def resumeTask (reg : Registry) (t : ATask) (m : RMap) :
    RMap × List REvent × List ATask :=
  match reg t.name with
  | none => (m, [.warnFailed t.name fetchFailMsg], [])
  | some metadata =>
    match findBestVersion (metadata.versions.map Prod.fst) t.range with
    | none => (m, [.warnNoVersion t.name t.range], [])
    | some best =>
      let vd := (lookupVD metadata.versions best).getD ⟨none, none, none, none⟩
      let pkg := mkResolved t.name best vd
      let m2 := setA m t.name pkg
      if pkg.dependencies ≠ [] then
        if t.depth + 1 > 50 then (m2, [.warnFailed t.name depthErrMsg], [])
        else
          let se := spawnTasks m2 pkg.dependencies (t.depth + 1)
          (m2, se.2, se.1)
      else (m2, [], [])

/-- One event-loop step: the scheduler (promise completion order) resumes
the `i % n`-th suspended closure.  On an empty pool the step is a no-op. -/
def cstep (reg : Registry) (c : CConf) (i : Nat) : CConf :=
  match c.tasks[i % c.tasks.length]? with
  | none => c
  | some t =>
    let r := resumeTask reg t c.resolved
    { resolved := r.1
      events := c.events ++ r.2.1
      tasks := c.tasks.eraseIdx (i % c.tasks.length) ++ r.2.2 }

/-- Run a finite schedule, one resumption per entry. -/
def crun (reg : Registry) : List Nat → CConf → CConf
  | [], c => c
  | i :: is, c => crun reg is (cstep reg c i)

/-- The top-level `resolveDependencies(deps, new Map(), 0)` up to its first
suspension: depth 0 passes the guard and the root batch spawns. -/
def cinit (deps : DepMap) : CConf :=
  { resolved := []
    events := (spawnTasks [] deps 0).2
    tasks := (spawnTasks [] deps 0).1 }

/-- How many metadata fetches were issued for a given package name. -/
def fetchesFor (es : List REvent) (n : Str) : Nat :=
  (es.filter (fun e => match e with
    | .fetchMeta m _ => m == n
    | _ => false)).length

/-- `dist` record shared by the counterexample registry's packages. -/
def ccDist : Dist :=
  { integrity := some (("shaC").data)
    shasum := none
    tarball := some (("urlC").data) }

/-- Counterexample registry: `a@1.0.0` depends on `b@^1.0.0`; `b` exists in
versions `1.0.0` and `2.0.0`, both leaf packages. -/
def ccReg : Registry := fun name =>
  if name = ("a").data then
    some { versions := [(("1.0.0").data,
      { dist := some ccDist
        dependencies := some [(("b").data, ("^1.0.0").data)]
        peerDependencies := none
        optionalDependencies := none })] }
  else if name = ("b").data then
    some { versions := [
      (("1.0.0").data,
        { dist := some ccDist
          dependencies := none
          peerDependencies := none
          optionalDependencies := none }),
      (("2.0.0").data,
        { dist := some ccDist
          dependencies := none
          peerDependencies := none
          optionalDependencies := none })] }
  else none

/-- Root manifest of the counterexample: `a` at `*` and `b` at `^2.0.0`. -/
def ccDeps : DepMap := [(("a").data, [ '*' ]), (("b").data, ("^2.0.0").data)]

/-- After two resumptions (`a` first — whose subtree spawns a second,
in-flight request for `b` at `^1.0.0` — then the root `b` closure):
`b ↦ 2.0.0` is in the map while the duplicate `b` fetch is still pending. -/
def ccMid : CConf := crun ccReg [0, 0] (cinit ccDeps)

/-- After the third resumption (the in-flight `b@^1.0.0` closure): its
`resolved.set` replaces the existing `b` entry. -/
def ccFin : CConf := crun ccReg [0, 0, 0] (cinit ccDeps)

/-! ### Basic facts about the version comparator -/

theorem compareVersions_self (a : Str) : compareVersions a a = 0 := by
  simp [compareVersions]

theorem compareVersions_antisymm (a b : Str) :
    compareVersions a b = -compareVersions b a := by
  simp only [compareVersions]
  split_ifs <;> omega

theorem compareVersions_le_trans {a b c : Str}
    (h1 : compareVersions a b ≤ 0) (h2 : compareVersions b c ≤ 0) :
    compareVersions a c ≤ 0 := by
  simp only [compareVersions] at h1 h2 ⊢
  split_ifs at h1 h2 ⊢ <;> omega

theorem descLe_total (a b : Str) : descLe a b ∨ descLe b a := by
  unfold descLe
  have := compareVersions_antisymm a b
  omega

theorem descLe_trans {a b c : Str} (h1 : descLe a b) (h2 : descLe b c) :
    descLe a c :=
  compareVersions_le_trans h2 h1

/-- **C3.** `findBestVersion` returns the highest candidate (under the
program's numeric `major.minor.patch` comparator) among those satisfying the
range, and `null` exactly when no candidate satisfies it; for the candidates
`["1.0.0", "1.2.0", "1.1.5"]` with range `"^1.0.0"` it returns `"1.2.0"`.
The nonemptiness hypothesis rules out the empty string as a candidate (a
falsy `matching[0]`), which is outside the version grammar. -/
theorem findBestVersion_highest (versions : List Str) (range : Str)
    (hne : ∀ v ∈ versions, v ≠ []) :
    (∀ best, findBestVersion versions range = some best →
      best ∈ versions ∧ satisfies best range = true ∧
        ∀ v ∈ versions, satisfies v range = true → compareVersions v best ≤ 0) ∧
    (findBestVersion versions range = none →
      ∀ v ∈ versions, satisfies v range = false) ∧
    findBestVersion [("1.0.0").data, ("1.2.0").data, ("1.1.5").data]
        (("^1.0.0").data) = some (("1.2.0").data) := by
  haveI : IsTotal Str descLe := ⟨descLe_total⟩
  haveI : IsTrans Str descLe := ⟨fun _ _ _ => descLe_trans⟩
  have hperm := List.perm_insertionSort descLe
      (versions.filter (fun v => satisfies v range))
  have hsort := List.sorted_insertionSort descLe
      (versions.filter (fun v => satisfies v range))
  refine ⟨?_, ?_, by decide⟩
  · intro best hbest
    unfold findBestVersion at hbest
    cases hsl : (versions.filter (fun v => satisfies v range)).insertionSort descLe with
    | nil => rw [hsl] at hbest; simp at hbest
    | cons m t =>
      rw [hsl] at hbest
      simp only [List.head?_cons] at hbest
      by_cases hm : m = []
      · simp [hm] at hbest
      · simp only [if_neg hm, Option.some.injEq] at hbest
        subst hbest
        have hmem : m ∈ versions.filter (fun v => satisfies v range) := by
          rw [hsl] at hperm
          exact hperm.subset (List.mem_cons_self _ _)
        have hmf := List.mem_filter.mp hmem
        refine ⟨hmf.1, hmf.2, ?_⟩
        intro v hv hsat
        have hvf : v ∈ versions.filter (fun w => satisfies w range) :=
          List.mem_filter.mpr ⟨hv, hsat⟩
        have hvs : v ∈ m :: t := by
          rw [hsl] at hperm
          exact hperm.symm.subset hvf
        rcases List.mem_cons.mp hvs with rfl | hvt
        · simp [compareVersions_self]
        · rw [hsl] at hsort
          exact List.rel_of_sorted_cons hsort v hvt
  · intro hnone v hv
    by_contra hsat
    have hsat' : satisfies v range = true := by
      cases h : satisfies v range
      · exact absurd h hsat
      · rfl
    have hvf : v ∈ versions.filter (fun w => satisfies w range) :=
      List.mem_filter.mpr ⟨hv, hsat'⟩
    unfold findBestVersion at hnone
    cases hsl : (versions.filter (fun w => satisfies w range)).insertionSort descLe with
    | nil =>
      rw [hsl] at hperm
      rw [hperm.symm.eq_nil] at hvf
      simp at hvf
    | cons m t =>
      rw [hsl] at hnone
      simp only [List.head?_cons] at hnone
      have hmem : m ∈ versions.filter (fun w => satisfies w range) := by
        rw [hsl] at hperm
        exact hperm.subset (List.mem_cons_self _ _)
      have hm : m ≠ [] := hne m (List.mem_filter.mp hmem).1
      rw [if_neg hm] at hnone
      exact Option.some_ne_none _ hnone

/-- Closed witness for `findBestVersion_highest` at a concrete input. -/
theorem findBestVersion_highest_witness :
    findBestVersion [("1.0.0").data, ("1.2.0").data, ("1.1.5").data]
        (("^1.0.0").data) = some (("1.2.0").data) :=
  (findBestVersion_highest [("1.0.0").data, ("1.2.0").data, ("1.1.5").data]
    (("^1.0.0").data) (by decide)).2.2

theorem mem_renderNat_isDigit {n : Nat} {c : Char} (hc : c ∈ renderNat n) :
    c.isDigit = true := by
  unfold renderNat at hc
  split at hc
  · simp only [List.mem_singleton] at hc
    subst hc
    decide
  · simp only [List.mem_map, List.mem_reverse] at hc
    obtain ⟨d, hd, rfl⟩ := hc
    have hlt : d < 10 := Nat.digits_lt_base (by norm_num) hd
    interval_cases d <;> decide

theorem not_mem_renderNat {n : Nat} {c : Char} (hc : c.isDigit = false) :
    c ∉ renderNat n := fun h => by
  rw [mem_renderNat_isDigit h] at hc
  exact Bool.noConfusion hc

theorem renderNat_ne_nil (n : Nat) : renderNat n ≠ [] := by
  unfold renderNat
  split
  · simp
  · next h =>
    simp only [ne_eq, List.map_eq_nil, List.reverse_eq_nil_iff]
    exact Nat.digits_ne_nil_iff_ne_zero.mpr h

theorem foldl_reverse_ofDigits (l : List ℕ) (a : ℕ) :
    List.foldl (fun acc d => acc * 10 + d) a l.reverse
      = a * 10 ^ l.length + Nat.ofDigits 10 l := by
  induction l generalizing a with
  | nil => simp
  | cons x t ih =>
    simp only [List.reverse_cons, List.foldl_append, List.foldl_cons,
      List.foldl_nil, ih, Nat.ofDigits_cons, List.length_cons]
    ring

theorem digitsVal_renderNat (n : Nat) : digitsVal (renderNat n) = n := by
  unfold renderNat
  split
  · next h => subst h; rfl
  · rw [digitsVal, List.foldl_map]
    have hext : List.foldl
        (fun (a : ℕ) (d : ℕ) => a * 10 + ((Char.ofNat (48 + d)).toNat - 48)) 0
          (Nat.digits 10 n).reverse
        = List.foldl (fun (a : ℕ) (d : ℕ) => a * 10 + d) 0
            (Nat.digits 10 n).reverse := by
      apply List.foldl_ext
      intro a d hd
      rw [List.mem_reverse] at hd
      have hlt : d < 10 := Nat.digits_lt_base (by norm_num) hd
      congr 1
      interval_cases d <;> decide
    rw [hext, foldl_reverse_ofDigits, Nat.ofDigits_digits]
    ring

theorem digitRun_renderNat (n : Nat) : digitRun (renderNat n) = renderNat n := by
  rw [digitRun, List.takeWhile_eq_self_iff]
  intro c hc
  exact mem_renderNat_isDigit hc

theorem head?_renderNat_ne {n : Nat} {c : Char} (hc : c.isDigit = false) :
    (renderNat n).head? ≠ some c := by
  intro h
  cases heq : renderNat n with
  | nil => rw [heq] at h; simp at h
  | cons x xs =>
    rw [heq] at h
    simp only [List.head?_cons, Option.some.injEq] at h
    subst h
    exact not_mem_renderNat hc (heq ▸ List.mem_cons_self _ _)

theorem jsParseInt_renderNat (n : Nat) : jsParseInt (renderNat n) = some (n : Int) := by
  rw [jsParseInt, if_neg (head?_renderNat_ne (by decide))]
  simp only [digitRun_renderNat]
  rw [if_neg (renderNat_ne_nil n), digitsVal_renderNat]

theorem parseIntOr0_renderNat (n : Nat) : parseIntOr0 (renderNat n) = n := by
  rw [parseIntOr0, jsParseInt_renderNat, Option.getD_some]

theorem renderNat_inj {m n : Nat} (h : renderNat m = renderNat n) : m = n := by
  have := jsParseInt_renderNat m
  rw [h, jsParseInt_renderNat n] at this
  have h2 : n = m := by simpa using this
  exact h2.symm

theorem splitOn_of_not_mem {sep : Char} {xs : Str} (h : sep ∉ xs) :
    splitOn sep xs = [xs] := by
  induction xs with
  | nil => rfl
  | cons c cs ih =>
    rw [List.mem_cons, not_or] at h
    rw [splitOn, if_neg (fun hc => h.1 hc.symm), ih h.2]

theorem splitOn_append {sep : Char} {xs ys : Str} (h : sep ∉ xs) :
    splitOn sep (xs ++ sep :: ys) = xs :: splitOn sep ys := by
  induction xs with
  | nil =>
    simp only [List.nil_append]
    rw [splitOn, if_pos rfl]
  | cons c cs ih =>
    rw [List.mem_cons, not_or] at h
    rw [List.cons_append, splitOn, if_neg (fun hc => h.1 hc.symm), ih h.2]

theorem splitOn_renderVer (v : Ver3) :
    splitOn '.' (renderVer v)
      = [renderNat v.major, renderNat v.minor, renderNat v.patch] := by
  rw [renderVer, splitOn_append (not_mem_renderNat (by decide)),
    splitOn_append (not_mem_renderNat (by decide)),
    splitOn_of_not_mem (not_mem_renderNat (by decide))]

theorem verComp_renderVer (v : Ver3) :
    verComp (renderVer v) 0 = v.major ∧ verComp (renderVer v) 1 = v.minor ∧
      verComp (renderVer v) 2 = v.patch := by
  refine ⟨?_, ?_, ?_⟩ <;>
    simp [verComp, splitOn_renderVer, parseIntOr0_renderNat]

theorem compareVersions_renderVer (x y : Ver3) :
    compareVersions (renderVer x) (renderVer y) = cmpVer3 x y := by
  obtain ⟨hx0, hx1, hx2⟩ := verComp_renderVer x
  obtain ⟨hy0, hy1, hy2⟩ := verComp_renderVer y
  rw [compareVersions, cmpVer3, hx0, hx1, hx2, hy0, hy1, hy2]

theorem renderVer_cons (v : Ver3) :
    ∃ c l, renderVer v = c :: l ∧ c.isDigit = true := by
  cases h : renderNat v.major with
  | nil => exact absurd h (renderNat_ne_nil _)
  | cons x xs =>
    refine ⟨x, xs ++ '.' :: (renderNat v.minor ++ '.' :: renderNat v.patch), ?_, ?_⟩
    · rw [renderVer, h, List.cons_append]
    · exact mem_renderNat_isDigit (h ▸ List.mem_cons_self _ _)

theorem renderVer_inj {a b : Ver3} (h : renderVer a = renderVer b) : a = b := by
  have h2 := congrArg (splitOn '.') h
  rw [splitOn_renderVer, splitOn_renderVer] at h2
  simp only [List.cons.injEq, and_true] at h2
  obtain ⟨h1, h2', h3⟩ := h2
  cases a; cases b
  simp only [Ver3.mk.injEq]
  exact ⟨renderNat_inj h1, renderNat_inj h2', renderNat_inj h3⟩

theorem cmpVer3_nonneg_iff (x b : Ver3) : 0 ≤ cmpVer3 x b ↔ verGe x b := by
  unfold cmpVer3 verGe
  split_ifs <;> omega

theorem cmpVer3_pos_iff (x b : Ver3) : 0 < cmpVer3 x b ↔ verGt x b := by
  unfold cmpVer3 verGt
  split_ifs <;> omega

theorem cmpVer3_le_iff (x b : Ver3) : cmpVer3 x b ≤ 0 ↔ verGe b x := by
  unfold cmpVer3 verGe
  split_ifs <;> omega

theorem cmpVer3_neg_iff (x b : Ver3) : cmpVer3 x b < 0 ↔ verGt b x := by
  unfold cmpVer3 verGt
  split_ifs <;> omega

theorem cons_ne_cons_of_ne {a b : Char} {l l' : Str} (h : a ≠ b) :
    a :: l ≠ b :: l' := by
  intro he
  injection he with h1 _
  exact h h1

theorem ne_digit_of_not_digit {c d : Char} (hc : c.isDigit = true)
    (hd : d.isDigit = false) : d ≠ c := by
  intro he
  rw [he, hc] at hd
  exact Bool.noConfusion hd

theorem renderVer_ne_cons {v : Ver3} {c : Char} {l : Str}
    (hc : c.isDigit = false) : renderVer v ≠ c :: l := by
  obtain ⟨x, xs, hx, hdx⟩ := renderVer_cons v
  rw [hx]
  exact cons_ne_cons_of_ne (fun he => (ne_digit_of_not_digit hdx hc) he.symm)

theorem head?_renderVer_ne {v : Ver3} {c : Char} (hc : c.isDigit = false) :
    (renderVer v).head? ≠ some c := by
  obtain ⟨x, xs, hx, hdx⟩ := renderVer_cons v
  rw [hx, List.head?_cons]
  intro he
  exact ne_digit_of_not_digit hdx hc (Option.some.inj he).symm

theorem stripV_renderVer (v : Ver3) : stripV (renderVer v) = renderVer v := by
  rw [stripV, if_neg (head?_renderVer_ne (by decide))]

theorem stripV_cons {c : Char} (h : c ≠ 'v') (l : Str) :
    stripV (c :: l) = c :: l := by
  rw [stripV, List.head?_cons, if_neg (fun he => h (Option.some.inj he))]

theorem isPrefixOf_head_ne {a c : Char} {p l : Str} (h : a ≠ c) :
    ((a :: p).isPrefixOf (c :: l)) = false := by
  simp only [List.isPrefixOf, Bool.and_eq_false_iff, beq_eq_false_iff_ne, ne_eq]
  exact Or.inl h

theorem isPrefixOf_snd_ne {a b c : Char} {l : Str} (h : b ≠ c) :
    (([a, b]).isPrefixOf (a :: c :: l)) = false := by
  simp only [List.isPrefixOf, Bool.and_eq_false_iff, beq_eq_false_iff_ne, ne_eq]
  exact Or.inr (Or.inl h)

theorem satisfies_render_star (x : Ver3) :
    satisfies (renderVer x) (renderRange .starR) = specSatisfies x .starR := by
  rw [renderRange, satisfies, if_pos (Or.inl rfl), specSatisfies]

theorem satisfies_render_latest (x : Ver3) :
    satisfies (renderVer x) (renderRange .latestR) = specSatisfies x .latestR := by
  rw [renderRange, satisfies, if_pos (Or.inr rfl), specSatisfies]

theorem satisfies_render_caret (x b : Ver3) :
    satisfies (renderVer x) (renderRange (.caretR b))
      = specSatisfies x (.caretR b) := by
  have hstar : ¬('^' :: renderVer b = [ '*' ] ∨
      '^' :: renderVer b = ("latest").data) := by
    rintro (h | h) <;> exact cons_ne_cons_of_ne (by decide) h
  rw [renderRange]
  simp only [satisfies]
  rw [if_neg hstar, stripV_cons (by decide), stripV_renderVer, List.head?_cons,
    if_pos rfl, List.tail_cons, splitOn_renderVer, splitOn_renderVer]
  simp only [List.getElem?_cons_zero]
  simp only [compareVersions_renderVer]
  have h1 : (some (renderNat b.major) = some (renderNat x.major))
      ↔ (x.major = b.major) := by
    constructor
    · intro h
      exact (renderNat_inj (Option.some.inj h)).symm
    · intro h
      rw [h]
  simp only [h1, cmpVer3_nonneg_iff, specSatisfies, Bool.decide_and]

theorem satisfies_render_tilde (x b : Ver3) :
    satisfies (renderVer x) (renderRange (.tildeR b))
      = specSatisfies x (.tildeR b) := by
  have hstar : ¬('~' :: renderVer b = [ '*' ] ∨
      '~' :: renderVer b = ("latest").data) := by
    rintro (h | h) <;> exact cons_ne_cons_of_ne (by decide) h
  rw [renderRange]
  simp only [satisfies]
  rw [if_neg hstar, stripV_cons (by decide), stripV_renderVer, List.head?_cons,
    if_neg (by intro he; exact absurd (Option.some.inj he) (by decide)),
    if_pos rfl, List.tail_cons, splitOn_renderVer, splitOn_renderVer]
  simp only [List.getElem?_cons_zero, List.getElem?_cons_succ]
  simp only [compareVersions_renderVer]
  have h1 : (some (renderNat b.major) = some (renderNat x.major))
      ↔ (x.major = b.major) := by
    constructor
    · intro h
      exact (renderNat_inj (Option.some.inj h)).symm
    · intro h
      rw [h]
  have h2 : (some (renderNat b.minor) = some (renderNat x.minor))
      ↔ (x.minor = b.minor) := by
    constructor
    · intro h
      exact (renderNat_inj (Option.some.inj h)).symm
    · intro h
      rw [h]
  simp only [h1, h2, cmpVer3_nonneg_iff, specSatisfies, Bool.decide_and, Bool.and_assoc]

theorem satisfies_render_ge (x b : Ver3) :
    satisfies (renderVer x) (renderRange (.geR b))
      = specSatisfies x (.geR b) := by
  have hstar : ¬('>' :: '=' :: renderVer b = [ '*' ] ∨
      '>' :: '=' :: renderVer b = ("latest").data) := by
    rintro (h | h) <;> exact cons_ne_cons_of_ne (by decide) h
  rw [renderRange]
  simp only [satisfies]
  rw [if_neg hstar, stripV_cons (by decide), stripV_renderVer, List.head?_cons,
    if_neg (by intro he; exact absurd (Option.some.inj he) (by decide)),
    if_neg (by intro he; exact absurd (Option.some.inj he) (by decide)),
    if_pos (show ((">=").data.isPrefixOf ('>' :: '=' :: renderVer b)) = true by
      simp [List.isPrefixOf])]
  simp only [List.drop_succ_cons, List.drop_zero]
  simp only [compareVersions_renderVer]
  simp only [cmpVer3_nonneg_iff, specSatisfies]

theorem satisfies_render_gt (x b : Ver3) :
    satisfies (renderVer x) (renderRange (.gtR b))
      = specSatisfies x (.gtR b) := by
  obtain ⟨c, l, hcl, hdc⟩ := renderVer_cons b
  have hstar : ¬('>' :: renderVer b = [ '*' ] ∨
      '>' :: renderVer b = ("latest").data) := by
    rintro (h | h) <;> exact cons_ne_cons_of_ne (by decide) h
  rw [renderRange]
  simp only [satisfies]
  rw [if_neg hstar, stripV_cons (by decide), stripV_renderVer, List.head?_cons,
    if_neg (by intro he; exact absurd (Option.some.inj he) (by decide)),
    if_neg (by intro he; exact absurd (Option.some.inj he) (by decide))]
  rw [show ((">=").data.isPrefixOf ('>' :: renderVer b)) = false by
      rw [hcl]
      exact isPrefixOf_snd_ne (ne_digit_of_not_digit hdc (by decide))]
  rw [if_neg (by simp), if_pos rfl]
  simp only [List.drop_succ_cons, List.drop_zero]
  simp only [compareVersions_renderVer]
  simp only [cmpVer3_pos_iff, specSatisfies]

theorem satisfies_render_le (x b : Ver3) :
    satisfies (renderVer x) (renderRange (.leR b))
      = specSatisfies x (.leR b) := by
  have hstar : ¬('<' :: '=' :: renderVer b = [ '*' ] ∨
      '<' :: '=' :: renderVer b = ("latest").data) := by
    rintro (h | h) <;> exact cons_ne_cons_of_ne (by decide) h
  rw [renderRange]
  simp only [satisfies]
  rw [if_neg hstar, stripV_cons (by decide), stripV_renderVer, List.head?_cons,
    if_neg (by intro he; exact absurd (Option.some.inj he) (by decide)),
    if_neg (by intro he; exact absurd (Option.some.inj he) (by decide))]
  rw [show ((">=").data.isPrefixOf ('<' :: '=' :: renderVer b)) = false from
      isPrefixOf_head_ne (by decide)]
  rw [if_neg (by simp),
    if_neg (by intro he; exact absurd (Option.some.inj he) (by decide)),
    if_pos (show (("<=").data.isPrefixOf ('<' :: '=' :: renderVer b)) = true by
      simp [List.isPrefixOf])]
  simp only [List.drop_succ_cons, List.drop_zero]
  simp only [compareVersions_renderVer]
  simp only [cmpVer3_le_iff, specSatisfies]

theorem satisfies_render_lt (x b : Ver3) :
    satisfies (renderVer x) (renderRange (.ltR b))
      = specSatisfies x (.ltR b) := by
  obtain ⟨c, l, hcl, hdc⟩ := renderVer_cons b
  have hstar : ¬('<' :: renderVer b = [ '*' ] ∨
      '<' :: renderVer b = ("latest").data) := by
    rintro (h | h) <;> exact cons_ne_cons_of_ne (by decide) h
  rw [renderRange]
  simp only [satisfies]
  rw [if_neg hstar, stripV_cons (by decide), stripV_renderVer, List.head?_cons,
    if_neg (by intro he; exact absurd (Option.some.inj he) (by decide)),
    if_neg (by intro he; exact absurd (Option.some.inj he) (by decide))]
  rw [show ((">=").data.isPrefixOf ('<' :: renderVer b)) = false from
      isPrefixOf_head_ne (by decide)]
  rw [if_neg (by simp),
    if_neg (by intro he; exact absurd (Option.some.inj he) (by decide))]
  rw [show (("<=").data.isPrefixOf ('<' :: renderVer b)) = false by
      rw [hcl]
      exact isPrefixOf_snd_ne (ne_digit_of_not_digit hdc (by decide))]
  rw [if_neg (by simp), if_pos rfl]
  simp only [List.drop_succ_cons, List.drop_zero]
  simp only [compareVersions_renderVer]
  simp only [cmpVer3_neg_iff, specSatisfies]

theorem satisfies_render_exact (x b : Ver3) :
    satisfies (renderVer x) (renderRange (.exactR b))
      = specSatisfies x (.exactR b) := by
  obtain ⟨c, l, hcl, hdc⟩ := renderVer_cons b
  have hstar : ¬(renderVer b = [ '*' ] ∨ renderVer b = ("latest").data) := by
    rintro (h | h) <;> exact renderVer_ne_cons (by decide) h
  rw [renderRange]
  simp only [satisfies]
  rw [if_neg hstar, stripV_renderVer, stripV_renderVer,
    if_neg (head?_renderVer_ne (by decide)),
    if_neg (head?_renderVer_ne (by decide))]
  rw [show ((">=").data.isPrefixOf (renderVer b)) = false by
      rw [hcl]
      exact isPrefixOf_head_ne (ne_digit_of_not_digit hdc (by decide))]
  rw [if_neg (by simp), if_neg (head?_renderVer_ne (by decide))]
  rw [show (("<=").data.isPrefixOf (renderVer b)) = false by
      rw [hcl]
      exact isPrefixOf_head_ne (ne_digit_of_not_digit hdc (by decide))]
  rw [if_neg (by simp), if_neg (head?_renderVer_ne (by decide))]
  have h1 : (renderVer x = renderVer b) ↔ (x = b) := by
    constructor
    · exact renderVer_inj
    · intro h
      rw [h]
  simp only [h1, specSatisfies]

/-- **C4.** On the supported range grammar, `satisfies` is exactly the range
semantics described by the spec: exact equality; `*`/`latest` always true;
caret — same major and `v ≥ base`; tilde — same major and minor and
`v ≥ base`; `>=`, `>`, `<=`, `<` — all under the purely numeric
`major.minor.patch` order (`specSatisfies`).  It is a total function by
construction, and in particular `satisfies("4.17.21","^4.17.0")` is true and
`satisfies("5.0.0","^4.17.0")` is false; a fully non-numeric component
parses as 0 (`"1.x.0"` is treated as `"1.0.0"`). -/
theorem satisfies_implements_grammar (x : Ver3) (r : RangeForm) :
    satisfies (renderVer x) (renderRange r) = specSatisfies x r ∧
    satisfies (("4.17.21").data) (("^4.17.0").data) = true ∧
    satisfies (("5.0.0").data) (("^4.17.0").data) = false ∧
    compareVersions (("1.x.0").data) (("1.0.0").data) = 0 := by
  refine ⟨?_, by decide, by decide, by decide⟩
  cases r with
  | exactR b => exact satisfies_render_exact x b
  | starR => exact satisfies_render_star x
  | latestR => exact satisfies_render_latest x
  | caretR b => exact satisfies_render_caret x b
  | tildeR b => exact satisfies_render_tilde x b
  | geR b => exact satisfies_render_ge x b
  | gtR b => exact satisfies_render_gt x b
  | leR b => exact satisfies_render_le x b
  | ltR b => exact satisfies_render_lt x b

/-- **C10.** `compareVersions` reads only the first three dot-separated
components, each parsed as an integer (missing or digit-free components
count as 0, components with trailing garbage keep their leading digits), and
components beyond the third are ignored: two strings agreeing on the three
parsed components are interchangeable under the comparator.  Hence
`"1.2.3"`, `"1.2.3-beta"` and `"1.2.3.9"` all compare equal, and
`findBestVersion` breaks such ties by candidate order (stable sort),
possibly returning a pre-release string. -/
theorem compareVersions_first_three (a b : Str)
    (h0 : verComp a 0 = verComp b 0) (h1 : verComp a 1 = verComp b 1)
    (h2 : verComp a 2 = verComp b 2) :
    (∀ c, compareVersions a c = compareVersions b c ∧
      compareVersions c a = compareVersions c b) ∧
    compareVersions (("1.2.3").data) (("1.2.3-beta").data) = 0 ∧
    compareVersions (("1.2.3").data) (("1.2.3.9").data) = 0 ∧
    findBestVersion [("1.2.3-beta").data, ("1.2.3").data] [ '*' ]
      = some (("1.2.3-beta").data) := by
  refine ⟨?_, by decide, by decide, by decide⟩
  intro c
  constructor <;> simp only [compareVersions, h0, h1, h2]

/-- Closed witness for `compareVersions_first_three`: `"1.2.3"` and
`"1.2.3.9"` agree on the first three components and are interchangeable
against `"2.0.0"`. -/
theorem compareVersions_first_three_witness :
    (verComp (("1.2.3").data) 0 = verComp (("1.2.3.9").data) 0 ∧
      verComp (("1.2.3").data) 1 = verComp (("1.2.3.9").data) 1 ∧
      verComp (("1.2.3").data) 2 = verComp (("1.2.3.9").data) 2) ∧
    (compareVersions (("1.2.3").data) (("2.0.0").data)
        = compareVersions (("1.2.3.9").data) (("2.0.0").data) ∧
      compareVersions (("2.0.0").data) (("1.2.3").data)
        = compareVersions (("2.0.0").data) (("1.2.3.9").data)) :=
  ⟨⟨by decide, by decide, by decide⟩,
    (compareVersions_first_three (("1.2.3").data) (("1.2.3.9").data)
      (by decide) (by decide) (by decide)).1 (("2.0.0").data)⟩

/-! ### Association-map lemmas -/

theorem lookupA_addEvent (st : ResState) (e : REvent) :
    (st.addEvent e).resolved = st.resolved := rfl

theorem lookupA_setA_preserve {m : RMap} {k : Str} {v : ResolvedPackage}
    {n : Str} {p : ResolvedPackage} (hk : lookupA m k = none)
    (hp : lookupA m n = some p) : lookupA (setA m k v) n = some p := by
  induction m with
  | nil => simp [lookupA] at hp
  | cons hd rest ih =>
    obtain ⟨k', v'⟩ := hd
    rw [lookupA] at hk hp
    rw [setA]
    by_cases hkk : k' = k
    · rw [if_pos hkk] at hk
      exact absurd hk (by simp)
    · rw [if_neg hkk] at hk
      rw [if_neg hkk]
      by_cases hkn : k' = n
      · rw [if_pos hkn] at hp
        rw [lookupA, if_pos hkn]
        exact hp
      · rw [if_neg hkn] at hp
        rw [lookupA, if_neg hkn]
        exact ih hk hp

theorem setA_of_none {m : RMap} {k : Str} (v : ResolvedPackage)
    (hk : lookupA m k = none) : setA m k v = m ++ [(k, v)] := by
  induction m with
  | nil => rfl
  | cons hd rest ih =>
    obtain ⟨k', v'⟩ := hd
    rw [lookupA] at hk
    by_cases hkk : k' = k
    · rw [if_pos hkk] at hk
      exact absurd hk (by simp)
    · rw [if_neg hkk] at hk
      rw [setA, if_neg hkk, List.cons_append, ih hk]

theorem lookupA_eq_none_iff {m : RMap} {k : Str} :
    lookupA m k = none ↔ k ∉ m.map Prod.fst := by
  induction m with
  | nil => simp [lookupA]
  | cons hd rest ih =>
    obtain ⟨k', v'⟩ := hd
    rw [lookupA]
    by_cases hkk : k' = k
    · subst hkk
      rw [if_pos rfl]
      refine iff_of_false (by simp) ?_
      intro hn
      exact hn (List.mem_cons_self _ _)
    · rw [if_neg hkk]
      simp only [List.map_cons, List.mem_cons, ih]
      constructor
      · intro h hmem
        rcases hmem with h1 | h1
        · exact hkk h1.symm
        · exact h h1
      · intro h
        exact fun h1 => h (Or.inr h1)

/-! ### Structural invariants of the resolver -/

theorem resolveEntries_isOk (reg : Registry) :
    ∀ (fuel : Nat) (entries : List (Str × Str)) (st : ResState) (depth : Nat),
      isOkE (resolveEntries reg fuel entries st depth) = true := by
  intro fuel
  induction fuel with
  | zero => intro entries st depth; rfl
  | succ fuel ih =>
    intro entries st depth
    cases entries with
    | nil => rfl
    | cons hd rest =>
      obtain ⟨nm, rng⟩ := hd
      simp only [resolveEntries]
      split
      · exact ih rest st depth
      · split
        · exact ih rest _ depth
        · split
          · exact ih rest _ depth
          · split
            · split
              · exact ih rest _ depth
              · exact ih rest _ depth
            · exact ih rest _ depth

theorem resolveDependencies_isOk_iff (reg : Registry) (fuel : Nat)
    (deps : DepMap) (st : ResState) (depth : Nat) :
    isOkE (resolveDependencies reg fuel deps st depth) = decide (depth ≤ 50) := by
  rw [resolveDependencies]
  by_cases hd : depth > 50
  · rw [if_pos hd]
    simp [isOkE, Nat.not_le.mpr hd]
  · rw [if_neg hd]
    rw [resolveEntries_isOk]
    simp [Nat.not_lt.mp hd]

theorem resolveEntries_preserves_lookup (reg : Registry) :
    ∀ (fuel : Nat) (entries : List (Str × Str)) (st : ResState) (depth : Nat)
      (name : Str) (p : ResolvedPackage),
      lookupA st.resolved name = some p →
      lookupA (okState (resolveEntries reg fuel entries st depth)).resolved name
        = some p := by
  intro fuel
  induction fuel with
  | zero => intro entries st depth name p hp; exact hp
  | succ fuel ih =>
    intro entries st depth name p hp
    cases entries with
    | nil => exact hp
    | cons hd rest =>
      obtain ⟨nm, rng⟩ := hd
      simp only [resolveEntries]
      split
      · exact ih rest st depth name p hp
      · next hhas =>
        have hknone : lookupA st.resolved nm = none := by
          cases h : lookupA st.resolved nm
          · rfl
          · rw [h] at hhas; simp at hhas
        split
        · exact ih rest _ depth name p hp
        · next metadata heqreg =>
          split
          · exact ih rest _ depth name p hp
          · next best hbv =>
            have hp2 : lookupA (setA st.resolved nm
                (mkResolved nm best ((lookupVD metadata.versions best).getD
                  ⟨none, none, none, none⟩))) name = some p :=
              lookupA_setA_preserve hknone hp
            split
            · split
              · next msg heq =>
                exact ih rest _ depth name p hp2
              · next st3 heq =>
                by_cases hg : depth + 1 > 50
                · rw [if_pos hg] at heq
                  exact absurd heq (by simp)
                · rw [if_neg hg] at heq
                  refine ih rest st3 depth name p ?_
                  rw [show st3 = okState (Except.ok st3) from rfl, ← heq]
                  exact ih _ _ (depth + 1) name p hp2
            · exact ih rest _ depth name p hp2

theorem fetchDepths_append (es es' : List REvent) :
    fetchDepths (es ++ es') = fetchDepths es ++ fetchDepths es' :=
  List.filterMap_append es es' _

theorem resolveEntries_no_refetch (reg : Registry) :
    ∀ (fuel : Nat) (entries : List (Str × Str)) (st : ResState) (depth : Nat)
      (name : Str) (p : ResolvedPackage) (d : Nat),
      lookupA st.resolved name = some p →
      REvent.fetchMeta name d
        ∈ (okState (resolveEntries reg fuel entries st depth)).events →
      REvent.fetchMeta name d ∈ st.events := by
  intro fuel
  induction fuel with
  | zero => intro entries st depth name p d _ hm; exact hm
  | succ fuel ih =>
    intro entries st depth name p d hp hm
    cases entries with
    | nil => exact hm
    | cons hd rest =>
      obtain ⟨nm, rng⟩ := hd
      simp only [resolveEntries] at hm
      split at hm
      · exact ih rest st depth name p d hp hm
      · next hhas =>
        have hknone : lookupA st.resolved nm = none := by
          cases h : lookupA st.resolved nm
          · rfl
          · rw [h] at hhas; simp at hhas
        have hnmne : nm ≠ name := by
          intro he
          rw [he, hp] at hknone
          exact Option.noConfusion hknone
        split at hm
        · have h2 : REvent.fetchMeta name d ∈
              (st.events ++ [REvent.fetchMeta nm depth]) ++
                [REvent.warnFailed nm fetchFailMsg] := by
            refine ih rest _ depth name p d ?_ hm
            exact hp
          rcases List.mem_append.mp h2 with h3 | h3
          · rcases List.mem_append.mp h3 with h4 | h4
            · exact h4
            · rw [List.mem_singleton] at h4
              injection h4 with h5 _
              exact absurd h5.symm hnmne
          · rw [List.mem_singleton] at h3
            exact REvent.noConfusion h3
        · next metadata heqreg =>
          split at hm
          · have h2 : REvent.fetchMeta name d ∈
                (st.events ++ [REvent.fetchMeta nm depth]) ++
                  [REvent.warnNoVersion nm rng] := by
              refine ih rest _ depth name p d ?_ hm
              exact hp
            rcases List.mem_append.mp h2 with h3 | h3
            · rcases List.mem_append.mp h3 with h4 | h4
              · exact h4
              · rw [List.mem_singleton] at h4
                injection h4 with h5 _
                exact absurd h5.symm hnmne
            · rw [List.mem_singleton] at h3
              exact REvent.noConfusion h3
          · next best hbv =>
            have hp2 : lookupA (setA st.resolved nm
                (mkResolved nm best ((lookupVD metadata.versions best).getD
                  ⟨none, none, none, none⟩))) name = some p :=
              lookupA_setA_preserve hknone hp
            split at hm
            · split at hm
              · next msg heq =>
                have h2 : REvent.fetchMeta name d ∈
                    (st.events ++ [REvent.fetchMeta nm depth]) ++
                      [REvent.warnFailed nm msg] := by
                  refine ih rest _ depth name p d ?_ hm
                  exact hp2
                rcases List.mem_append.mp h2 with h3 | h3
                · rcases List.mem_append.mp h3 with h4 | h4
                  · exact h4
                  · rw [List.mem_singleton] at h4
                    injection h4 with h5 _
                    exact absurd h5.symm hnmne
                · rw [List.mem_singleton] at h3
                  exact REvent.noConfusion h3
              · next st3 heq =>
                by_cases hg : depth + 1 > 50
                · rw [if_pos hg] at heq
                  exact absurd heq (by simp)
                · rw [if_neg hg] at heq
                  have hp3 : lookupA st3.resolved name = some p := by
                    rw [show st3 = okState (Except.ok st3) from rfl, ← heq]
                    exact resolveEntries_preserves_lookup reg fuel _ _
                      (depth + 1) name p hp2
                  have hm3 := ih rest st3 depth name p d hp3 hm
                  rw [show st3 = okState (Except.ok st3) from rfl, ← heq] at hm3
                  have hm4 : REvent.fetchMeta name d ∈
                      st.events ++ [REvent.fetchMeta nm depth] := by
                    refine ih _ _ (depth + 1) name p d ?_ hm3
                    exact hp2
                  rcases List.mem_append.mp hm4 with h4 | h4
                  · exact h4
                  · rw [List.mem_singleton] at h4
                    injection h4 with h5 _
                    exact absurd h5.symm hnmne
            · have h2 : REvent.fetchMeta name d ∈
                  st.events ++ [REvent.fetchMeta nm depth] := by
                refine ih rest _ depth name p d ?_ hm
                exact hp2
              rcases List.mem_append.mp h2 with h3 | h3
              · exact h3
              · rw [List.mem_singleton] at h3
                injection h3 with h5 _
                exact absurd h5.symm hnmne

theorem resolveEntries_fetch_le (reg : Registry) :
    ∀ (fuel : Nat) (entries : List (Str × Str)) (st : ResState) (depth : Nat),
      depth ≤ 50 →
      (∀ d ∈ fetchDepths st.events, d ≤ 50) →
      ∀ d ∈ fetchDepths
        (okState (resolveEntries reg fuel entries st depth)).events, d ≤ 50 := by
  intro fuel
  induction fuel with
  | zero => intro entries st depth _ hinv; exact hinv
  | succ fuel ih =>
    intro entries st depth hd hinv
    cases entries with
    | nil => exact hinv
    | cons hds rest =>
      obtain ⟨nm, rng⟩ := hds
      have hfetch : ∀ x ∈ fetchDepths
          (st.events ++ [REvent.fetchMeta nm depth]), x ≤ 50 := by
        intro x hx
        rw [fetchDepths_append] at hx
        rcases List.mem_append.mp hx with h | h
        · exact hinv x h
        · rw [show fetchDepths [REvent.fetchMeta nm depth] = [depth] from rfl,
            List.mem_singleton] at h
          exact h ▸ hd
      simp only [resolveEntries]
      split
      · exact ih rest st depth hd hinv
      · split
        · refine ih rest _ depth hd ?_
          intro x hx
          have hx' : x ∈ fetchDepths
              ((st.events ++ [REvent.fetchMeta nm depth]) ++
                [REvent.warnFailed nm fetchFailMsg]) := hx
          rw [fetchDepths_append,
            show fetchDepths [REvent.warnFailed nm fetchFailMsg] = [] from rfl,
            List.append_nil] at hx'
          exact hfetch x hx'
        · next metadata heqreg =>
          split
          · refine ih rest _ depth hd ?_
            intro x hx
            have hx' : x ∈ fetchDepths
                ((st.events ++ [REvent.fetchMeta nm depth]) ++
                  [REvent.warnNoVersion nm rng]) := hx
            rw [fetchDepths_append,
              show fetchDepths [REvent.warnNoVersion nm rng] = [] from rfl,
              List.append_nil] at hx'
            exact hfetch x hx'
          · next best hbv =>
            split
            · split
              · next msg heq =>
                refine ih rest _ depth hd ?_
                intro x hx
                have hx' : x ∈ fetchDepths
                    ((st.events ++ [REvent.fetchMeta nm depth]) ++
                      [REvent.warnFailed nm msg]) := hx
                rw [fetchDepths_append,
                  show fetchDepths [REvent.warnFailed nm msg] = [] from rfl,
                  List.append_nil] at hx'
                exact hfetch x hx'
              · next st3 heq =>
                by_cases hg : depth + 1 > 50
                · rw [if_pos hg] at heq
                  exact absurd heq (by simp)
                · rw [if_neg hg] at heq
                  refine ih rest st3 depth hd ?_
                  rw [show st3 = okState (Except.ok st3) from rfl, ← heq]
                  refine ih _ _ (depth + 1) (by omega) ?_
                  exact hfetch
            · refine ih rest _ depth hd ?_
              exact hfetch

theorem resolveEntries_nodup (reg : Registry) :
    ∀ (fuel : Nat) (entries : List (Str × Str)) (st : ResState) (depth : Nat),
      (st.resolved.map Prod.fst).Nodup →
      ((okState (resolveEntries reg fuel entries st depth)).resolved.map
        Prod.fst).Nodup := by
  intro fuel
  induction fuel with
  | zero => intro entries st depth h; exact h
  | succ fuel ih =>
    intro entries st depth hnd
    cases entries with
    | nil => exact hnd
    | cons hds rest =>
      obtain ⟨nm, rng⟩ := hds
      simp only [resolveEntries]
      split
      · exact ih rest st depth hnd
      · next hhas =>
        have hknone : lookupA st.resolved nm = none := by
          cases h : lookupA st.resolved nm
          · rfl
          · rw [h] at hhas; simp at hhas
        split
        · exact ih rest _ depth hnd
        · next metadata heqreg =>
          split
          · exact ih rest _ depth hnd
          · next best hbv =>
            have hnd2 : ((setA st.resolved nm
                (mkResolved nm best ((lookupVD metadata.versions best).getD
                  ⟨none, none, none, none⟩))).map Prod.fst).Nodup := by
              rw [setA_of_none _ hknone, List.map_append]
              rw [List.nodup_append]
              refine ⟨hnd, List.nodup_singleton _, ?_⟩
              intro a ha hb
              simp only [List.map_cons, List.map_nil, List.mem_singleton] at hb
              subst hb
              exact lookupA_eq_none_iff.mp hknone ha
            split
            · split
              · next msg heq => exact ih rest _ depth hnd2
              · next st3 heq =>
                by_cases hg : depth + 1 > 50
                · rw [if_pos hg] at heq
                  exact absurd heq (by simp)
                · rw [if_neg hg] at heq
                  refine ih rest st3 depth ?_
                  rw [show st3 = okState (Except.ok st3) from rfl, ← heq]
                  exact ih _ _ (depth + 1) hnd2
            · exact ih rest _ depth hnd2

/-- **C1** (counterexample).  On the synthetic chain that exceeds the
maximum depth, resolution — and hence the install that calls it — is NOT
aborted: the call returns successfully, because the depth-limit error
raised by the depth-51 recursive call is caught by the per-package `catch`
of the depth-50 frame and downgraded to the warning recorded for the
package 51 `p`s deep; metadata fetches stop at depth 50 (depths 0..50,
none at 51). -/
theorem depth_guard_counterexample :
    isOkE chainRun = true ∧
    REvent.warnFailed (List.replicate 51 'p') depthErrMsg
      ∈ (okState chainRun).events ∧
    fetchDepths (okState chainRun).events = List.range 51 :=
  ⟨by decide, by decide, by decide⟩

/-- **C1** (amended).  The depth guard makes exceeding the maximum depth a
per-package warning, not a fatal abort: (1) the top-level resolution call
issued by `install` (depth 0) always returns successfully, for every
registry and dependency map — the depth-limit error can never propagate out
of `install`; (2) no metadata fetch is ever issued at depth 51 or beyond;
(3) any call that enters at depth > 50 raises the depth-limit error before
doing anything (in particular before any fetch at that depth); and (4) on
the synthetic depth-51 chain the error is downgraded to a warning naming
the depth-50 package. -/
theorem depth_guard_amended (reg : Registry) (fuel : Nat) (deps : DepMap) :
    isOkE (resolveDependencies reg fuel deps ResState.init 0) = true ∧
    (∀ d ∈ fetchDepths
        (okState (resolveDependencies reg fuel deps ResState.init 0)).events,
      d ≤ 50) ∧
    (∀ (st : ResState) (depth : Nat), depth > 50 →
      resolveDependencies reg fuel deps st depth = Except.error depthErrMsg) ∧
    REvent.warnFailed (List.replicate 51 'p') depthErrMsg
      ∈ (okState chainRun).events := by
  refine ⟨?_, ?_, ?_, by decide⟩
  · rw [resolveDependencies_isOk_iff]
    decide
  · rw [resolveDependencies, if_neg (by omega)]
    refine resolveEntries_fetch_le reg fuel _ ResState.init 0 (by omega) ?_
    intro d hd
    exact absurd hd (List.not_mem_nil d)
  · intro st depth hdep
    rw [resolveDependencies, if_pos hdep]

/-- Closed witness for `depth_guard_amended` on the synthetic chain. -/
theorem depth_guard_amended_witness :
    isOkE (resolveDependencies chainReg 1000
        [(List.replicate 1 'p', [ '*' ])] ResState.init 0) = true ∧
    (50 ∈ fetchDepths (okState (resolveDependencies chainReg 1000
        [(List.replicate 1 'p', [ '*' ])] ResState.init 0)).events ∧ 50 ≤ 50) ∧
    resolveDependencies chainReg 1000 [(List.replicate 1 'p', [ '*' ])]
        ResState.init 51 = Except.error depthErrMsg := by
  have h := depth_guard_amended chainReg 1000 [(List.replicate 1 'p', [ '*' ])]
  exact ⟨h.1, ⟨by decide, h.2.1 50 (by decide)⟩,
    h.2.2.1 ResState.init 51 (by decide)⟩

/-- Under the SEQUENTIAL schedule (each closure's whole subtree completes
before the next closure starts — the linearization `resolveEntries` uses),
the full dedup discipline does hold: an entry present in the map is never
replaced, no metadata fetch is issued for a name already in the map, and
the key list stays duplicate-free.  The event-loop model below shows the
replacement half fails on other schedules. -/
theorem resolved_map_dedup (reg : Registry) (fuel : Nat) (deps : DepMap)
    (st : ResState) (depth : Nat) (hd : depth ≤ 50) :
    (∀ name p, lookupA st.resolved name = some p →
      lookupA (okState (resolveDependencies reg fuel deps st depth)).resolved
          name = some p ∧
        ∀ d, REvent.fetchMeta name d
            ∈ (okState (resolveDependencies reg fuel deps st depth)).events →
          REvent.fetchMeta name d ∈ st.events) ∧
    ((st.resolved.map Prod.fst).Nodup →
      ((okState (resolveDependencies reg fuel deps st depth)).resolved.map
        Prod.fst).Nodup) := by
  rw [resolveDependencies, if_neg (by omega)]
  refine ⟨fun name p hp => ⟨?_, fun d hm => ?_⟩, fun hnd => ?_⟩
  · exact resolveEntries_preserves_lookup reg fuel _ st depth name p hp
  · exact resolveEntries_no_refetch reg fuel _ st depth name p d hp hm
  · exact resolveEntries_nodup reg fuel _ st depth hnd

/-- Closed witness for `resolved_map_dedup`: with `a` pre-resolved, a pass
that requests `a` twice more (directly and through `b`) leaves `a`'s entry
intact, fetches only `b`, and keeps the key list duplicate-free. -/
theorem resolved_map_dedup_witness :
    (lookupA (okState (resolveDependencies demoReg 100 demoDeps demoSt
        0)).resolved (("a").data) = some demoPkgA ∧
      (REvent.fetchMeta (("a").data) 0
          ∈ (okState (resolveDependencies demoReg 100 demoDeps demoSt
            0)).events →
        REvent.fetchMeta (("a").data) 0 ∈ demoSt.events)) ∧
    ((okState (resolveDependencies demoReg 100 demoDeps demoSt 0)).resolved.map
      Prod.fst).Nodup := by
  have h := resolved_map_dedup demoReg 100 demoDeps demoSt 0 (by decide)
  have h2 := h.1 (("a").data) demoPkgA (by decide)
  exact ⟨⟨h2.1, h2.2 0⟩, h.2 (by decide)⟩

/-- Keys after `map.set`: unchanged when the key is present (in-place
replacement), appended otherwise. -/
theorem setA_keys (m : RMap) (k : Str) (v : ResolvedPackage) :
    (setA m k v).map Prod.fst =
      if k ∈ m.map Prod.fst then m.map Prod.fst
      else m.map Prod.fst ++ [k] := by
  induction m with
  | nil =>
    rw [setA, if_neg (by simp)]
    rfl
  | cons hd rest ih =>
    obtain ⟨k', v'⟩ := hd
    rw [setA]
    by_cases h : k' = k
    · subst h
      rw [if_pos rfl, List.map_cons, List.map_cons,
        if_pos (List.mem_cons_self _ _)]
    · rw [if_neg h, List.map_cons, List.map_cons, ih]
      by_cases hm : k ∈ rest.map Prod.fst
      · rw [if_pos hm, if_pos (List.mem_cons_of_mem _ hm)]
      · have hknot : ¬ k ∈ Prod.fst (k', v') :: rest.map Prod.fst := by
          intro hc
          rcases List.mem_cons.mp hc with hc | hc
          · exact h hc.symm
          · exact hm hc
        rw [if_neg hm, if_neg hknot, List.cons_append]

/-- `map.set` keeps the key list duplicate-free. -/
theorem setA_nodup {m : RMap} {k : Str} {v : ResolvedPackage}
    (h : (m.map Prod.fst).Nodup) : ((setA m k v).map Prod.fst).Nodup := by
  rw [setA_keys]
  by_cases hm : k ∈ m.map Prod.fst
  · rwa [if_pos hm]
  · rw [if_neg hm]
    simp [List.nodup_append, h, hm]

/-- `map.set` never removes an entry (it replaces or appends). -/
theorem lookupA_setA_isSome {m : RMap} {k : Str} {v : ResolvedPackage}
    {n : Str} (h : (lookupA m n).isSome = true) :
    (lookupA (setA m k v) n).isSome = true := by
  induction m with
  | nil => simp [lookupA] at h
  | cons hd rest ih =>
    obtain ⟨k', v'⟩ := hd
    rw [setA]
    by_cases hkk : k' = k
    · rw [if_pos hkk]
      rw [lookupA] at h ⊢
      by_cases hn : k' = n
      · simp [hn]
      · rw [if_neg hn] at h ⊢
        exact h
    · rw [if_neg hkk]
      rw [lookupA] at h ⊢
      by_cases hn : k' = n
      · simp [hn]
      · rw [if_neg hn] at h ⊢
        exact ih h

/-- A resume segment either leaves the map alone (fetch failure, no
matching version) or performs one `resolved.set` for its own name. -/
theorem resumeTask_resolved (reg : Registry) (t : ATask) (m : RMap) :
    (resumeTask reg t m).1 = m ∨
    ∃ pkg, (resumeTask reg t m).1 = setA m t.name pkg := by
  simp only [resumeTask]
  split
  · exact Or.inl rfl
  · split
    · exact Or.inl rfl
    · split
      · split
        · exact Or.inr ⟨_, rfl⟩
        · exact Or.inr ⟨_, rfl⟩
      · exact Or.inr ⟨_, rfl⟩

/-- An event-loop step either leaves the map alone or performs one
`resolved.set`. -/
theorem cstep_resolved (reg : Registry) (c : CConf) (i : Nat) :
    (cstep reg c i).resolved = c.resolved ∨
    ∃ nm pkg, (cstep reg c i).resolved = setA c.resolved nm pkg := by
  rw [cstep]
  split
  · exact Or.inl rfl
  · next t heq =>
    rcases resumeTask_resolved reg t c.resolved with h | ⟨pkg, h⟩
    · exact Or.inl h
    · exact Or.inr ⟨t.name, pkg, h⟩

/-- A spawn segment only creates tasks for names that are unresolved in the
map it filtered against. -/
theorem spawnTasks_unresolved (m : RMap) (deps : List (Str × Str))
    (depth : Nat) :
    ∀ t2 ∈ (spawnTasks m deps depth).1, lookupA m t2.name = none := by
  intro t2 ht
  simp only [spawnTasks, List.mem_map, List.mem_filter] at ht
  obtain ⟨e, ⟨_, he⟩, rfl⟩ := ht
  simp only [decide_eq_true_eq] at he
  exact Option.not_isSome_iff_eq_none.mp he

/-- **C2.** (amended)  In EVERY event-loop interleaving of the batched
traversal: the `resolved` map holds at most one entry per package name at
any time (its key list stays duplicate-free — `Map.set` replaces in
place), an entry once present is never removed, and a spawn segment never
starts a metadata fetch for a name that is already in the map when the
batch is filtered.  What the original claim asserts beyond this — that an
existing entry is never REPLACED and that a name never sees a second fetch
— is false: the closure re-checks `resolved.has` only before its `await
fetchPackageMetadata`, never between the await and `resolved.set`, so two
closures for the same name in flight at once (spawned from different
parents, at possibly different ranges) both fetch, and the later completion
overwrites the earlier entry (see the counterexample). -/
theorem resolved_map_one_per_name (reg : Registry) (c : CConf) (i : Nat)
    (h : (c.resolved.map Prod.fst).Nodup) :
    ((cstep reg c i).resolved.map Prod.fst).Nodup ∧
    (∀ n, (lookupA c.resolved n).isSome = true →
      (lookupA (cstep reg c i).resolved n).isSome = true) ∧
    (∀ m deps depth, ∀ t2 ∈ (spawnTasks m deps depth).1,
      lookupA m t2.name = none) := by
  refine ⟨?_, ?_, fun m deps depth => spawnTasks_unresolved m deps depth⟩
  · rcases cstep_resolved reg c i with hc | ⟨nm, pkg, hc⟩
    · rwa [hc]
    · rw [hc]
      exact setA_nodup h
  · intro n hn
    rcases cstep_resolved reg c i with hc | ⟨nm, pkg, hc⟩
    · rwa [hc]
    · rw [hc]
      exact lookupA_setA_isSome hn

/-- Closed witness for `resolved_map_one_per_name` at the counterexample's
mid-run configuration (two entries in the map, the duplicate `b` closure
still in flight). -/
theorem resolved_map_one_per_name_witness :
    ((ccMid.resolved.map Prod.fst).Nodup) ∧
    (((cstep ccReg ccMid 0).resolved.map Prod.fst).Nodup) := by
  have h : (ccMid.resolved.map Prod.fst).Nodup := by decide
  exact ⟨h, (resolved_map_one_per_name ccReg ccMid 0 h).1⟩

/-- **C2 counterexample.**  The schedule [resume `a`; resume the root `b`
closure; resume the `b@^1.0.0` closure spawned by `a`] is a real
interleaving of one resolution pass (root manifest `a@*, b@^2.0.0`), and
under it the existing `b ↦ 2.0.0` entry IS replaced by `b ↦ 1.0.0`, after
two metadata fetches for `b` (one per in-flight closure): both `b`
closures passed their `resolved.has` check — at spawn time, when `b` was
absent — and neither re-checks before `resolved.set`. -/
theorem resolved_map_replaced_counterexample :
    fetchesFor ccFin.events (("b").data) = 2 ∧
    (lookupA ccMid.resolved (("b").data)).map ResolvedPackage.version =
      some (("2.0.0").data) ∧
    (lookupA ccFin.resolved (("b").data)).map ResolvedPackage.version =
      some (("1.0.0").data) ∧
    ccFin.tasks = [] := by
  decide

/-! ### Store and fetch-phase lemmas -/

theorem lookupS_setS_self (ix : StoreIndex) (k : Str × Str) (e : StoreEntry) :
    lookupS (setS ix k e) k = some e := by
  induction ix with
  | nil => simp [setS, lookupS]
  | cons hd rest ih =>
    obtain ⟨k', e'⟩ := hd
    rw [setS]
    by_cases hkk : k' = k
    · rw [if_pos hkk, lookupS, if_pos hkk]
    · rw [if_neg hkk, lookupS, if_neg hkk]
      exact ih

theorem lookupS_setS_ne (ix : StoreIndex) {k k' : Str × Str} (e : StoreEntry)
    (h : k' ≠ k) : lookupS (setS ix k e) k' = lookupS ix k' := by
  induction ix with
  | nil =>
    show (if k = k' then some e else lookupS [] k') = lookupS [] k'
    rw [if_neg (fun hk => h hk.symm)]
  | cons hd rest ih =>
    obtain ⟨k'', e''⟩ := hd
    rw [setS]
    by_cases hkk : k'' = k
    · have hne : k'' ≠ k' := fun hq => h (by rw [← hq, hkk])
      rw [if_pos hkk, lookupS, lookupS, if_neg hne, if_neg hne]
    · rw [if_neg hkk, lookupS, lookupS]
      by_cases hkk' : k'' = k'
      · rw [if_pos hkk', if_pos hkk']
      · rw [if_neg hkk', if_neg hkk']
        exact ih

theorem storeHas_step (ix : StoreIndex) (fs : List Str) {n v : Str}
    (k : Str × Str) (e : StoreEntry) {d : Str}
    (he : e.extractedPath = some d)
    (h : storeHas ix fs n v = true) :
    storeHas (setS ix k e) (d :: fs) n v = true := by
  by_cases hk : (n, v) = k
  · rw [storeHas, ← hk, lookupS_setS_self]
    simp [he]
  · rw [storeHas, lookupS_setS_ne ix e hk]
    rw [storeHas] at h
    cases hl : lookupS ix (n, v) with
    | none => rw [hl] at h; simp at h
    | some e' =>
      rw [hl] at h
      cases hp : e'.extractedPath with
      | none => simp [hp] at h
      | some p =>
        simp only [hp, decide_eq_true_eq] at h
        simp [hp, List.mem_cons, h]

theorem fetchPhase_preserves (env : Env) :
    ∀ (td : List ResolvedPackage) (ix : StoreIndex) (fs : List Str)
      (n v : Str), storeHas ix fs n v = true →
      storeHas (fetchPhase env td ix fs).1 (fetchPhase env td ix fs).2.1 n v
        = true := by
  intro td
  induction td with
  | nil => intro ix fs n v h; exact h
  | cons pkg rest ih =>
    intro ix fs n v h
    rw [fetchPhase]
    cases hf : env.fetchTar pkg.tarballUrl with
    | none => exact ih ix fs n v h
    | some sz =>
      obtain ⟨ds, es⟩ := sz
      exact ih _ _ n v (storeHas_step ix fs _ _ rfl h)

theorem fetchPhase_complete (env : Env)
    (hfetch : ∀ u, (env.fetchTar u).isSome = true) :
    ∀ (td : List ResolvedPackage) (ix : StoreIndex) (fs : List Str)
      (pkg : ResolvedPackage), pkg ∈ td →
      storeHas (fetchPhase env td ix fs).1 (fetchPhase env td ix fs).2.1
        pkg.name pkg.version = true := by
  intro td
  induction td with
  | nil => intro ix fs pkg h; exact absurd h (List.not_mem_nil pkg)
  | cons hd rest ih =>
    intro ix fs pkg hmem
    rw [fetchPhase]
    cases hf : env.fetchTar hd.tarballUrl with
    | none =>
      have := hfetch hd.tarballUrl
      rw [hf] at this
      exact absurd this (by simp)
    | some sz =>
      obtain ⟨ds, es⟩ := sz
      rcases List.mem_cons.mp hmem with rfl | hrest
      · refine fetchPhase_preserves env rest _ _ pkg.name pkg.version ?_
        rw [storeHas, lookupS_setS_self]
        simp
      · exact ih _ _ pkg hrest

theorem splitCached_eq (ix : StoreIndex) (fs : List Str) (resolved : RMap) :
    (splitCached ix fs resolved).2
        = (resolved.map Prod.snd).filter
          (fun pkg => !storeHas ix fs pkg.name pkg.version) ∧
    (splitCached ix fs resolved).1
        = ((resolved.map Prod.snd).filter
          (fun pkg => storeHas ix fs pkg.name pkg.version)).length := by
  induction resolved with
  | nil => exact ⟨rfl, rfl⟩
  | cons kv rest ih =>
    obtain ⟨ih1, ih2⟩ := ih
    rw [splitCached]
    cases h : storeHas ix fs kv.2.name kv.2.version with
    | false => simp [h, List.filter_cons, ih1, ih2]
    | true => simp [h, List.filter_cons, ih1, ih2]

theorem splitCached_all_cached (ix : StoreIndex) (fs : List Str) :
    ∀ (resolved : RMap),
      (∀ kv ∈ resolved, storeHas ix fs kv.2.name kv.2.version = true) →
      splitCached ix fs resolved = (resolved.length, []) := by
  intro resolved
  induction resolved with
  | nil => intro _; rfl
  | cons kv rest ih =>
    intro h
    rw [splitCached, ih (fun kv2 h2 => h kv2 (List.mem_cons_of_mem kv h2)),
      if_pos (h kv (List.mem_cons_self kv rest))]
    rfl

theorem install_isOk (env : Env) (fuel : Nat) (deps : DepMap) (sys : Sys) :
    isOkI (install env fuel deps sys) = true := by
  have hr := resolveDependencies_isOk_iff env.reg fuel deps ResState.init 0
  simp only [install]
  split
  · next e heq =>
    split at heq
    · exact absurd heq (by simp)
    · split at heq
      · next e' heq2 =>
        rw [heq2] at hr
        exact absurd hr (by simp [isOkE])
      · exact absurd heq (by simp)
  · rfl

/-- **C7.** A lockfile containing malformed JSON behaves exactly like an
absent lockfile: `loadLockfile` returns `null`, the whole install run is
literally the same (full network resolution, no lockfile fast path), and no
fatal error is raised. -/
theorem lockfile_malformed_as_absent (env : Env) (fuel : Nat) (deps : DepMap)
    (ix : StoreIndex) (fs : List Str) :
    loadLockfile LockContent.malformed = none ∧
    loadLockfile LockContent.malformed = loadLockfile LockContent.absent ∧
    install env fuel deps ⟨ix, fs, LockContent.malformed⟩
      = install env fuel deps ⟨ix, fs, LockContent.absent⟩ ∧
    isOkI (install env fuel deps ⟨ix, fs, LockContent.malformed⟩) = true ∧
    (∀ r, install env fuel deps ⟨ix, fs, LockContent.malformed⟩ = Except.ok r →
      r.usedLockfile = false) := by
  refine ⟨rfl, rfl, rfl, install_isOk env fuel deps _, ?_⟩
  intro r hr
  simp only [install, loadLockfile] at hr
  split at hr
  · exact absurd hr (by simp)
  · next heq =>
    split at heq
    · exact absurd heq (by simp)
    · next st heq2 =>
      have h3 := Except.ok.inj heq
      have h5 := Except.ok.inj hr
      rw [← h5]
      exact (congrArg (fun t => t.2.2) h3).symm

/-- **C5.** A resolved package counts as cached in the fetch phase exactly
when the store index has an entry for its (name, version) whose
`extractedPath` is set and still exists on disk: `toDownload` is precisely
the resolved packages failing that check and `cachedCount` counts the ones
passing it; an index entry whose extracted directory is gone is a cache
miss (`storeHas` is false), never an abort — `install` still succeeds — and
every miss is re-downloaded and re-extracted: after the download loop its
store entry points at a directory that exists. -/
theorem store_trust (env : Env) (fuel : Nat) (deps : DepMap) (sys : Sys)
    (ix : StoreIndex) (fs : List Str) (resolved : RMap)
    (hfetch : ∀ u, (env.fetchTar u).isSome = true) :
    ((splitCached ix fs resolved).2
        = (resolved.map Prod.snd).filter
          (fun pkg => !storeHas ix fs pkg.name pkg.version) ∧
      (splitCached ix fs resolved).1
        = ((resolved.map Prod.snd).filter
          (fun pkg => storeHas ix fs pkg.name pkg.version)).length) ∧
    (∀ n v e, lookupS ix (n, v) = some e →
      (∀ p, e.extractedPath = some p → p ∉ fs) →
      storeHas ix fs n v = false) ∧
    isOkI (install env fuel deps sys) = true ∧
    (∀ pkg ∈ (splitCached sys.index sys.fs resolved).2,
      storeHas
        (fetchPhase env (splitCached sys.index sys.fs resolved).2
          sys.index sys.fs).1
        (fetchPhase env (splitCached sys.index sys.fs resolved).2
          sys.index sys.fs).2.1
        pkg.name pkg.version = true) := by
  refine ⟨splitCached_eq ix fs resolved, ?_, install_isOk env fuel deps sys, ?_⟩
  · intro n v e hl hp
    rw [storeHas, hl]
    cases hep : e.extractedPath with
    | none => simp [hep]
    | some p => simp [hep, hp p hep]
  · intro pkg hp
    exact fetchPhase_complete env hfetch _ sys.index sys.fs pkg hp

/-- Closed witness for `store_trust`: the index-without-directory entry is a
miss, install still succeeds, and the miss is re-downloaded into an
existing directory. -/
theorem store_trust_witness :
    storeHas staleIx [] (("s").data) (("1.0.0").data) = false ∧
    isOkI (install demoEnv 100 [] staleSys) = true ∧
    storeHas
      (fetchPhase demoEnv (splitCached staleIx [] staleResolved).2
        staleIx []).1
      (fetchPhase demoEnv (splitCached staleIx [] staleResolved).2
        staleIx []).2.1
      (stalePkg.name) (stalePkg.version) = true := by
  have h := store_trust demoEnv 100 [] staleSys staleIx [] staleResolved
    (fun u => rfl)
  refine ⟨?_, h.2.2.1, ?_⟩
  · refine h.2.1 (("s").data) (("1.0.0").data) staleEntry (by decide) ?_
    intro p hp
    rw [show staleEntry.extractedPath = some (("gone").data) from rfl] at hp
    rw [← Option.some.inj hp]
    exact List.not_mem_nil _
  · exact h.2.2.2 stalePkg (by decide)

/-- Closed witness for `lockfile_malformed_as_absent` at a concrete
environment. -/
theorem lockfile_malformed_as_absent_witness :
    loadLockfile LockContent.malformed = none ∧
    (okI (install demoEnv 100 demoDeps ⟨[], [], LockContent.malformed⟩)).usedLockfile
      = false := by
  have h := lockfile_malformed_as_absent demoEnv 100 demoDeps [] []
  exact ⟨h.1, h.2.2.2.2
    (okI (install demoEnv 100 demoDeps ⟨[], [], LockContent.malformed⟩))
    (by decide)⟩

/-! ### Idempotent re-install (C6) -/

theorem takeWhile_middle (p : Char → Bool) (y : Char) (xs ys : Str)
    (hxs : ∀ x ∈ xs, p x = true) (hy : p y = false) :
    (xs ++ y :: ys).takeWhile p = xs := by
  induction xs with
  | nil => simp [List.takeWhile_cons, hy]
  | cons a t ih =>
    have ha := hxs a (List.mem_cons_self a t)
    simp [List.takeWhile_cons, ha,
      ih (fun x hx => hxs x (List.mem_cons_of_mem a hx))]

theorem dropWhile_middle (p : Char → Bool) (y : Char) (xs ys : Str)
    (hxs : ∀ x ∈ xs, p x = true) (hy : p y = false) :
    (xs ++ y :: ys).dropWhile p = y :: ys := by
  induction xs with
  | nil => simp [List.dropWhile_cons, hy]
  | cons a t ih =>
    have ha := hxs a (List.mem_cons_self a t)
    simp [List.dropWhile_cons, ha,
      ih (fun x hx => hxs x (List.mem_cons_of_mem a hx))]

theorem stripVersionKey_append {name version : Str} (hv : version ≠ [])
    (hna : '@' ∉ version) :
    stripVersionKey (name ++ '@' :: version) = name := by
  have hrev : (name ++ '@' :: version).reverse
      = version.reverse ++ '@' :: name.reverse := by
    rw [List.reverse_append, List.reverse_cons, List.append_assoc,
      List.singleton_append]
  have hup : ∀ x ∈ version.reverse, (decide (x ≠ '@')) = true := by
    intro x hx
    rw [List.mem_reverse] at hx
    simp only [decide_eq_true_eq]
    intro he
    exact hna (he ▸ hx)
  have hat : (decide (('@' : Char) ≠ '@')) = false := by decide
  simp only [stripVersionKey, hrev,
    takeWhile_middle _ _ _ _ hup hat, dropWhile_middle _ _ _ _ hup hat]
  rw [if_neg (fun he => hv (by simpa using he)), List.reverse_reverse]

theorem orElseStr_some_ne {s : Str} (b : Str) (h : s ≠ []) :
    orElseStr (some s) b = s := by
  rw [orElseStr, if_neg h]

/-- The package rebuilt from the lockfile entry written for `p` is `p` with
its peer/optional dependency fields dropped. -/
theorem lockEntryResolved_mk (name : Str) (p : ResolvedPackage)
    (hv : p.version ≠ []) (hna : '@' ∉ p.version) (ht : p.tarballUrl ≠ [])
    (hn : name = p.name) :
    lockEntryResolved (name ++ '@' :: p.version)
        ⟨p.version, p.integrity, some p.dependencies, some p.tarballUrl⟩
      = { p with peerDependencies := none, optionalDependencies := none } := by
  simp only [lockEntryResolved, stripVersionKey_append hv hna,
    orElseStr_some_ne _ ht, Option.getD_some]
  rw [hn]

theorem lockResolved_aux :
    ∀ (l : List (Str × LockPkg)) (m : RMap),
      ((l.map (fun kv => stripVersionKey kv.1)).Nodup) →
      (∀ kv ∈ l, stripVersionKey kv.1 ∉ m.map Prod.fst) →
      l.foldl (fun m kv =>
          setA m (stripVersionKey kv.1) (lockEntryResolved kv.1 kv.2)) m
        = m ++ l.map (fun kv =>
            (stripVersionKey kv.1, lockEntryResolved kv.1 kv.2)) := by
  intro l
  induction l with
  | nil => intro m _ _; simp
  | cons kv rest ih =>
    intro m hnd hfresh
    rw [List.foldl_cons]
    have hnone : lookupA m (stripVersionKey kv.1) = none :=
      lookupA_eq_none_iff.mpr (hfresh kv (List.mem_cons_self kv rest))
    rw [setA_of_none _ hnone]
    rw [List.map_cons] at hnd
    have hnd2 := List.nodup_cons.mp hnd
    rw [ih (m ++ [(stripVersionKey kv.1, lockEntryResolved kv.1 kv.2)])
      hnd2.2 ?_]
    · rw [List.map_cons, List.append_assoc, List.singleton_append]
    · intro kv' hkv'
      rw [List.map_append]
      intro hmem
      rcases List.mem_append.mp hmem with h | h
      · exact hfresh kv' (List.mem_cons_of_mem kv hkv') h
      · simp only [List.map_cons, List.map_nil, List.mem_singleton] at h
        exact hnd2.1 (h ▸ List.mem_map_of_mem (fun kv => stripVersionKey kv.1) hkv')

theorem lockResolved_mkLockfile (RES : RMap)
    (hnd : (RES.map Prod.fst).Nodup)
    (hwf : ∀ kv ∈ RES, kv.1 = kv.2.name ∧ kv.2.version ≠ [] ∧
      '@' ∉ kv.2.version ∧ kv.2.tarballUrl ≠ []) :
    lockResolved (mkLockfile RES)
      = RES.map (fun kv => (kv.1, stripResolved kv.2)) := by
  have hstrip : ∀ kv ∈ RES,
      stripVersionKey (kv.1 ++ '@' :: kv.2.version) = kv.1 := by
    intro kv hkv
    obtain ⟨-, hv, hna, -⟩ := hwf kv hkv
    exact stripVersionKey_append hv hna
  rw [lockResolved, mkLockfile]
  rw [lockResolved_aux _ [] ?_ ?_]
  · rw [List.nil_append, List.map_map]
    apply List.map_congr_left
    intro kv hkv
    obtain ⟨hn, hv, hna, ht⟩ := hwf kv hkv
    simp only [Function.comp]
    rw [show (stripVersionKey (kv.1 ++ '@' :: kv.2.version)) = kv.1 from
      hstrip kv hkv]
    rw [show lockEntryResolved (kv.1 ++ '@' :: kv.2.version)
        ⟨kv.2.version, kv.2.integrity, some kv.2.dependencies,
          some kv.2.tarballUrl⟩
      = stripResolved kv.2 from lockEntryResolved_mk kv.1 kv.2 hv hna ht hn]
  · have heq : ((RES.map (fun kv =>
        (kv.1 ++ '@' :: kv.2.version,
          ({ version := kv.2.version, integrity := kv.2.integrity,
             dependencies := some kv.2.dependencies,
             tarballUrl := some kv.2.tarballUrl } : LockPkg)))).map
          (fun kv => stripVersionKey kv.1)) = RES.map Prod.fst := by
      rw [List.map_map]
      exact List.map_congr_left (fun kv hkv => hstrip kv hkv)
    rw [heq]
    exact hnd
  · intro kv _ h
    simp at h

theorem install_ok_spec (env : Env) (fuel : Nat) (deps : DepMap) (sys : Sys)
    (r : InstallResult) (h : install env fuel deps sys = Except.ok r) :
    r.sys.lock = LockContent.valid (mkLockfile r.resolved) ∧
    r.sys.index = (fetchPhase env (splitCached sys.index sys.fs r.resolved).2
      sys.index sys.fs).1 ∧
    r.sys.fs = (fetchPhase env (splitCached sys.index sys.fs r.resolved).2
      sys.index sys.fs).2.1 := by
  simp only [install] at h
  split at h
  · exact absurd h (by simp)
  · rw [← Except.ok.inj h]
    exact ⟨rfl, rfl, rfl⟩

theorem install_ok_store_complete (env : Env) (fuel : Nat) (deps : DepMap)
    (sys : Sys) (r : InstallResult)
    (h : install env fuel deps sys = Except.ok r)
    (hfetch : ∀ u, (env.fetchTar u).isSome = true) :
    ∀ kv ∈ r.resolved,
      storeHas r.sys.index r.sys.fs kv.2.name kv.2.version = true := by
  obtain ⟨-, hix, hfs⟩ := install_ok_spec env fuel deps sys r h
  intro kv hkv
  rw [hix, hfs]
  by_cases hc : storeHas sys.index sys.fs kv.2.name kv.2.version = true
  · exact fetchPhase_preserves env _ sys.index sys.fs _ _ hc
  · refine fetchPhase_complete env hfetch _ sys.index sys.fs kv.2 ?_
    rw [(splitCached_eq sys.index sys.fs r.resolved).1]
    refine List.mem_filter.mpr ⟨List.mem_map_of_mem Prod.snd hkv, ?_⟩
    cases hcc : storeHas sys.index sys.fs kv.2.name kv.2.version with
    | false => rfl
    | true => exact absurd hcc hc

/-- **C6.** Re-running install with an unchanged manifest and no store
mutation in between is idempotent: the second run takes the lockfile fast
path (no registry resolution events), downloads nothing, leaves the store
index and filesystem untouched, writes a lockfile identical to the first
run's, and resolves the same (name, version) set.  The hypotheses say the
first run succeeded with all downloads succeeding, and that its resolved
map is well-formed: nonempty, duplicate-free, keyed by package name, with
versions that are nonempty and `@`-free and nonempty tarball URLs — all
true of registry-resolved maps. -/
theorem install_idempotent (env : Env) (fuel : Nat) (deps : DepMap)
    (sys : Sys) (r1 : InstallResult)
    (h1 : install env fuel deps sys = Except.ok r1)
    (hfetch : ∀ u, (env.fetchTar u).isSome = true)
    (hne : r1.resolved ≠ [])
    (hnd : (r1.resolved.map Prod.fst).Nodup)
    (hwf : ∀ kv ∈ r1.resolved, kv.1 = kv.2.name ∧ kv.2.version ≠ [] ∧
      '@' ∉ kv.2.version ∧ kv.2.tarballUrl ≠ []) :
    ∃ r2, install env fuel deps r1.sys = Except.ok r2 ∧
      r2.usedLockfile = true ∧
      r2.resolveEvents = [] ∧
      r2.downloadCount = 0 ∧
      r2.sys.lock = r1.sys.lock ∧
      r2.sys.index = r1.sys.index ∧
      r2.sys.fs = r1.sys.fs ∧
      r2.resolved.map (fun kv => (kv.1, kv.2.name, kv.2.version))
        = r1.resolved.map (fun kv => (kv.1, kv.2.name, kv.2.version)) := by
  obtain ⟨hlock, hix, hfs⟩ := install_ok_spec env fuel deps sys r1 h1
  have hstore := install_ok_store_complete env fuel deps sys r1 h1 hfetch
  have hres2 := lockResolved_mkLockfile r1.resolved hnd hwf
  have hall : ∀ kv ∈ lockResolved (mkLockfile r1.resolved),
      storeHas r1.sys.index r1.sys.fs kv.2.name kv.2.version = true := by
    rw [hres2]
    intro kv hkv
    obtain ⟨kv0, hkv0, rfl⟩ := List.mem_map.mp hkv
    exact hstore kv0 hkv0
  have hsplit := splitCached_all_cached r1.sys.index r1.sys.fs
    (lockResolved (mkLockfile r1.resolved)) hall
  have hlen : 0 < (mkLockfile r1.resolved).packages.length := by
    rw [mkLockfile]
    simpa using List.length_pos.mpr hne
  have hmk : mkLockfile (lockResolved (mkLockfile r1.resolved))
      = mkLockfile r1.resolved := by
    rw [hres2, mkLockfile, mkLockfile, List.map_map]
    rfl
  have hrun2 : install env fuel deps r1.sys = Except.ok
      { resolved := lockResolved (mkLockfile r1.resolved)
        downloadCount := (fetchPhase env (splitCached r1.sys.index r1.sys.fs
          (lockResolved (mkLockfile r1.resolved))).2 r1.sys.index
          r1.sys.fs).2.2
        cachedCount := (splitCached r1.sys.index r1.sys.fs
          (lockResolved (mkLockfile r1.resolved))).1
        usedLockfile := true
        resolveEvents := []
        sys := { index := (fetchPhase env (splitCached r1.sys.index r1.sys.fs
                   (lockResolved (mkLockfile r1.resolved))).2 r1.sys.index
                   r1.sys.fs).1
                 fs := (fetchPhase env (splitCached r1.sys.index r1.sys.fs
                   (lockResolved (mkLockfile r1.resolved))).2 r1.sys.index
                   r1.sys.fs).2.1
                 lock := LockContent.valid (mkLockfile
                   (lockResolved (mkLockfile r1.resolved))) } } := by
    simp only [install, hlock, loadLockfile]
    rw [if_pos hlen]
  refine ⟨_, hrun2, rfl, rfl, ?_, ?_, ?_, ?_, ?_⟩
  · show (fetchPhase env (splitCached r1.sys.index r1.sys.fs
        (lockResolved (mkLockfile r1.resolved))).2 r1.sys.index
        r1.sys.fs).2.2 = 0
    rw [hsplit]
    rfl
  · show LockContent.valid (mkLockfile (lockResolved (mkLockfile
        r1.resolved))) = r1.sys.lock
    rw [hmk, hlock]
  · show (fetchPhase env (splitCached r1.sys.index r1.sys.fs
        (lockResolved (mkLockfile r1.resolved))).2 r1.sys.index
        r1.sys.fs).1 = r1.sys.index
    rw [hsplit]
    rfl
  · show (fetchPhase env (splitCached r1.sys.index r1.sys.fs
        (lockResolved (mkLockfile r1.resolved))).2 r1.sys.index
        r1.sys.fs).2.1 = r1.sys.fs
    rw [hsplit]
    rfl
  · show (lockResolved (mkLockfile r1.resolved)).map
        (fun kv => (kv.1, kv.2.name, kv.2.version))
      = r1.resolved.map (fun kv => (kv.1, kv.2.name, kv.2.version))
    rw [hres2, List.map_map]
    rfl

/-- Closed witness for `install_idempotent`: a first install of `x@1.0.0`
from an empty store, then a second run over the resulting system state. -/
theorem install_idempotent_witness :
    install idemEnv 100 idemDeps idemSys
        = Except.ok (okI (install idemEnv 100 idemDeps idemSys)) ∧
    ∃ r2, install idemEnv 100 idemDeps
          (okI (install idemEnv 100 idemDeps idemSys)).sys = Except.ok r2 ∧
      r2.usedLockfile = true ∧
      r2.resolveEvents = [] ∧
      r2.downloadCount = 0 ∧
      r2.sys.lock = (okI (install idemEnv 100 idemDeps idemSys)).sys.lock ∧
      r2.sys.index = (okI (install idemEnv 100 idemDeps idemSys)).sys.index ∧
      r2.sys.fs = (okI (install idemEnv 100 idemDeps idemSys)).sys.fs ∧
      r2.resolved.map (fun kv => (kv.1, kv.2.name, kv.2.version))
        = (okI (install idemEnv 100 idemDeps idemSys)).resolved.map
            (fun kv => (kv.1, kv.2.name, kv.2.version)) := by
  refine ⟨by decide, ?_⟩
  exact install_idempotent idemEnv 100 idemDeps idemSys
    (okI (install idemEnv 100 idemDeps idemSys)) (by decide) (fun _ => rfl)
    (by decide) (by decide) (by decide)

mutual
theorem observed_linkTree (env : LinkEnv) (mode : LinkMode) (t : FSTree)
    (d : Str) : observed (linkTree env mode t d) = t :=
  match t with
  | .file c => by
    cases mode <;> rw [linkTree] <;> try split
    all_goals rfl
  | .dir es => by
    rw [linkTree, observed, observedEntries_linkEntries env mode es d]

theorem observedEntries_linkEntries (env : LinkEnv) (mode : LinkMode)
    (es : FSEntries) (d : Str) :
    observedEntries (linkEntries env mode es d) = es :=
  match es with
  | .nil => rfl
  | .cons name t rest => by
    rw [linkEntries, observedEntries, observed_linkTree env mode t _,
      observedEntries_linkEntries env mode rest d]
end

mutual
theorem fallback_linkTree (env : LinkEnv) (mode : LinkMode) (t : FSTree)
    (d : Str) : fallbackOk env mode (linkTree env mode t d) d :=
  match t with
  | .file c => by
    cases mode <;> rw [linkTree] <;> try split
    all_goals simp_all [fallbackOk]
  | .dir es => by
    rw [linkTree]
    exact fallbackEntries_linkEntries env mode es d

theorem fallbackEntries_linkEntries (env : LinkEnv) (mode : LinkMode)
    (es : FSEntries) (d : Str) :
    fallbackEntriesOk env mode (linkEntries env mode es d) d :=
  match es with
  | .nil => trivial
  | .cons name t rest =>
    ⟨fallback_linkTree env mode t (d ++ '/' :: name),
      fallbackEntries_linkEntries env mode rest d⟩
end

/-- **C8.** `linkPackage` is total (no error surfaces): in hardlink mode
every regular file is hardlinked individually, falling back to a full byte
copy exactly where the hardlink syscall fails; symlink mode follows the
same per-file fallback-to-copy policy; and after it completes every source
file has a destination counterpart through which an observer reads the
source's exact content (the destination tree mirrors the source tree). -/
theorem linkPackage_fallback_and_content (env : LinkEnv) (mode : LinkMode)
    (t : FSTree) (d : Str) :
    observed (linkTree env mode t d) = t ∧
    fallbackOk env mode (linkTree env mode t d) d :=
  ⟨observed_linkTree env mode t d, fallback_linkTree env mode t d⟩

/-- **C9 counterexample.**  A snippet containing both the JS pattern
`import x from 'y'` and the Python-only marker `def f():` CAN be
classified `python`: with a second strong Python marker (`elif a:`) the
Python detector reaches its two-strong-matches threshold while the JS/TS
detector sees only one strong indicator (the import line) and no weak one,
so it rejects and the chain falls through to the Python check.  The
claimed "never 'python'" is therefore false. -/
theorem detect_order_counterexample :
    (∃ s t, s ++ ("import x from 'y'").data ++ t = pySnippet) ∧
    (∃ s t, s ++ ("def f():").data ++ t = pySnippet) ∧
    detectDictionaryType pySnippet = DictionaryType.python := by
  refine ⟨⟨[], ("\ndef f():\nelif a:").data, by decide⟩,
    ⟨("import x from 'y'\n").data, ("\nelif a:").data, by decide⟩, by decide⟩

/-- **C9.** (amended)  `detectDictionaryType` does evaluate minified-JS and
JS/TS detection (with the Vue/React refinement) before the Python
heuristics: whenever the JS/TS detector accepts, the result is never
`python`; whenever the minified-JS detector accepts (and none of the three
still-earlier detectors does), the result is `javascript`; when no detector
accepts at all, it falls back to `typescript` rather than failing; and on
the spec scenario itself — the import pattern plus the single Python marker
`def f():` — the result is `typescript`.  What is NOT true is the claim
that a snippet with the import pattern and Python-only markers is never
classified `python` (see the counterexample): the guarantee holds only
when the JS/TS detector actually accepts the snippet. -/
theorem detect_order_amended (text : Str) :
    (isJavaScriptOrTypeScript text = true →
      detectDictionaryType text ≠ DictionaryType.python) ∧
    (isMinifiedJs text = true → isHtml text = false → isCss text = false →
      isJson text = false →
      detectDictionaryType text = DictionaryType.javascript) ∧
    (isHtml text = false → isCss text = false → isJson text = false →
      isMinifiedJs text = false → isJavaScriptOrTypeScript text = false →
      isPython text = false → isRust text = false → isGo text = false →
      isJava text = false → isCpp text = false → isC text = false →
      detectDictionaryType text = DictionaryType.typescript) ∧
    detectDictionaryType jsPySnippet = DictionaryType.typescript := by
  refine ⟨?_, ?_, ?_, by decide⟩
  · intro h
    simp only [detectDictionaryType]
    split_ifs <;> simp_all
  · intro h h1 h2 h3
    simp [detectDictionaryType, h, h1, h2, h3]
  · intro h1 h2 h3 h4 h5 h6 h7 h8 h9 h10 h11
    simp [detectDictionaryType, h1, h2, h3, h4, h5, h6, h7, h8, h9, h10, h11]

end Pakk
